import Mathlib

/-!
# Verification of the data-generation engine (`regenerate_all_data.py`)

This file is a shallow embedding of the minute-resolution simulation and
dispatch engine of the repository's `regenerate_all_data.py`, together with
theorems settling the specification claims about it.

Modelling conventions:
* Python floats are modelled as exact rationals (`ℚ`); `round(x, 2)` is
  modelled as decimal rounding half-to-even at two places (Python's banker's
  rounding), `int(x)` as truncation toward zero.
* Timestamps are modelled as integer minutes since the simulation start
  (2024-10-30T00:00:00Z); all `datetime`/`timedelta` arithmetic in the source
  is in whole minutes, so this is exact.
* Calls into Python's global `random` generator are modelled by an explicit
  stream `ℕ → ℚ` of unit draws together with a cursor threaded through the
  state: `random.uniform a b` becomes `a + (b-a)·u`, `random.random()`
  becomes `u`, for the next unseeded draw `u` of the stream.  The stream
  `rng` models the draws made after `random.seed(12345)`, `rng2` the draws
  after `random.seed(54321)`, and a separate `ambient` stream models the
  draws made *before* `random.seed(12345)` is executed (`initial_levels`).
* The input JSON files (`cauldrons.json`, `unreported_drains.json`) are
  modelled as explicit input lists.
-/

namespace Regen

/-! ## Numeric helpers -/

/-- Round a rational to the nearest integer, ties to even (Python `round`). -/
def roundHalfEven (q : ℚ) : ℤ :=
  if q - ⌊q⌋ < 1/2 then ⌊q⌋
  else if 1/2 < q - ⌊q⌋ then ⌊q⌋ + 1
  else if ⌊q⌋ % 2 = 0 then ⌊q⌋ else ⌊q⌋ + 1

/-- Python `round(x, 2)`. -/
def round2 (q : ℚ) : ℚ := (roundHalfEven (q * 100) : ℚ) / 100

/-- Python `int(x)`: truncation toward zero. -/
def int_trunc (q : ℚ) : ℤ := q.num.tdiv (q.den : ℤ)

/-- `random.uniform a b`, with `u` the unit draw of the generator. -/
def uniformD (a b u : ℚ) : ℚ := a + (b - a) * u

/-- `random.randint a b` (both endpoints included), with unit draw `u`. -/
def randintD (a b : ℤ) (u : ℚ) : ℤ := a + min (b - a) ⌊u * ((b : ℚ) - (a : ℚ) + 1)⌋

/-- `random.choice` on a list of length `n`: the chosen index, with unit draw `u`. -/
def choiceIdx (n : ℕ) (u : ℚ) : ℕ := min (n - 1) (Int.toNat ⌊u * (n : ℚ)⌋)

/-- Python string comparison (used by `list.sort` on tuples containing ids). -/
def strLtB (a b : String) : Bool := compare a b == Ordering.lt

/-! ## Association-list helpers (Python `dict`s, insertion ordered) -/

/-- `d.get(k, default)` / `d[k]` with a default. -/
def lookupD {α : Type} (l : List (String × α)) (k : String) (d : α) : α :=
  ((l.find? fun p => p.1 == k).map Prod.snd).getD d

/-- `d.get(k)` (`None` when absent). -/
def lookupO {α : Type} (l : List (String × α)) (k : String) : Option α :=
  (l.find? fun p => p.1 == k).map Prod.snd

/-- `k in d`. -/
def containsA {α : Type} (l : List (String × α)) (k : String) : Bool :=
  l.any fun p => p.1 == k

/-- `d[k] = v` when the key is known to be present (in-place value update). -/
def updateA {α : Type} (l : List (String × α)) (k : String) (v : α) : List (String × α) :=
  l.map fun p => if p.1 == k then (p.1, v) else p

/-- `d[k] = v` for a possibly fresh key: update in place, else append. -/
def upsertA {α : Type} (l : List (String × α)) (k : String) (v : α) : List (String × α) :=
  if containsA l k then updateA l k v else l ++ [(k, v)]

/-! ## Data model (`cauldrons.json`, tickets, drains, schedules) -/

structure Cauldron where
  id : String
  max_volume : ℚ
deriving DecidableEq

structure NetworkEdge where
  src : String
  dst : String
  travel_time_minutes : ℤ
deriving DecidableEq

structure Courier where
  courier_id : String
  shift : ℕ
deriving DecidableEq

/-- A record of `unreported_drains.json` (timestamps in minutes). -/
structure UnreportedDrain where
  cauldron_id : String
  drain_start_timestamp : ℤ
  drain_end_timestamp : ℤ
  estimated_amount_drained_liters : ℚ
  duration_minutes : ℤ
deriving DecidableEq

/-- An entry of `pending_drains` (the active-drain set). -/
structure Drain where
  cauldron_id : String
  start : ℤ
  stop : ℤ
  duration : ℤ
  net_drain : ℚ
deriving DecidableEq

/-- An entry of `witch_schedules[w]`. -/
structure ScheduleEvent where
  departure_from_market : ℤ
  collection_start : ℤ
  collection_end : ℤ
  unload_complete : ℤ
  cauldron_id : String
  actual_drain : ℚ
  gross_drain : ℚ
  witch_id : String
deriving DecidableEq

/-- A transport ticket.  The optional field models `_actual_amount_collected`,
the shadow field present only on suspicious tickets. -/
structure Ticket where
  ticket_id : ℕ
  cauldron_id : String
  collection_start_timestamp : ℤ
  collection_timestamp : ℤ
  amount_collected : ℚ
  courier_id : String
  is_suspicious : Bool
  actual_amount_collected : Option ℚ
deriving DecidableEq

/-- The simulation inputs: dataset files plus the random streams. -/
structure Inputs where
  cauldrons : List Cauldron
  network_edges : List NetworkEdge
  couriers : List Courier
  existing_unreported : List UnreportedDrain
  rng : ℕ → ℚ
  rng2 : ℕ → ℚ

/-! ## Constants of the script -/

def UNLOAD_TIME : ℤ := 15
def MAX_CAPACITY_PER_WITCH : ℚ := 100
def MIN_BUFFER_BETWEEN_TRIPS : ℤ := 30

/-- Hard-coded per-cauldron fill rates (liters/minute). -/
def fill_rates (c : String) : ℚ :=
  if c = "cauldron_001" then 0.08
  else if c = "cauldron_002" then 0.065
  else if c = "cauldron_003" then 0.09
  else if c = "cauldron_004" then 0.07
  else if c = "cauldron_005" then 0.075
  else if c = "cauldron_006" then 0.055
  else if c = "cauldron_007" then 0.095
  else if c = "cauldron_008" then 0.08
  else if c = "cauldron_009" then 0.18
  else if c = "cauldron_010" then 0.075
  else if c = "cauldron_011" then 0.09
  else if c = "cauldron_012" then 0.065
  else 0

/-- Hard-coded collection thresholds (fraction of max volume). -/
def collection_thresholds (c : String) : ℚ :=
  if c = "cauldron_001" then 0.015
  else if c = "cauldron_002" then 0.018
  else if c = "cauldron_003" then 0.018
  else if c = "cauldron_004" then 0.015
  else if c = "cauldron_005" then 0.018
  else if c = "cauldron_006" then 0.020
  else if c = "cauldron_007" then 0.015
  else if c = "cauldron_008" then 0.018
  else if c = "cauldron_009" then 0.12
  else if c = "cauldron_010" then 0.020
  else if c = "cauldron_011" then 0.015
  else if c = "cauldron_012" then 0.018
  else 0

/-- Hard-coded per-cauldron base (net) drain rates (liters/minute). -/
def drain_rates (c : String) : ℚ :=
  if c = "cauldron_001" then 0.35
  else if c = "cauldron_002" then 0.32
  else if c = "cauldron_003" then 0.38
  else if c = "cauldron_004" then 0.33
  else if c = "cauldron_005" then 0.36
  else if c = "cauldron_006" then 0.30
  else if c = "cauldron_007" then 0.39
  else if c = "cauldron_008" then 0.34
  else if c = "cauldron_009" then 0.45
  else if c = "cauldron_010" then 0.35
  else if c = "cauldron_011" then 0.37
  else if c = "cauldron_012" then 0.31
  else 0

/-- The twelve cauldron ids of the script's configuration dictionaries. -/
def cauldron_ids : List String :=
  ["cauldron_001", "cauldron_002", "cauldron_003", "cauldron_004",
   "cauldron_005", "cauldron_006", "cauldron_007", "cauldron_008",
   "cauldron_009", "cauldron_010", "cauldron_011", "cauldron_012"]

/-- `start_date = 2024-10-30T00:00:00Z`, as minute 0. -/
def start_time : ℤ := 0

/-- `end_date = 2024-11-09T23:59:00Z`, in minutes after `start_date`. -/
def end_time : ℤ := 15839

/-- `total_minutes = int((end_date - start_date).total_seconds() / 60) + 1`. -/
def total_minutes : ℕ := (end_time - start_time).toNat + 1

/-- `(current_time - start_date) / (end_date - start_date)`. -/
def period_progress (t : ℤ) : ℚ := (t : ℚ) / ((end_time : ℚ) - (start_time : ℚ))

/-- `get_travel_time`: symmetric edge lookup with a 30-minute fallback. -/
def get_travel_time (edges : List NetworkEdge) (a b : String) : ℤ :=
  if a = b then 0
  else
    match edges.find? fun e => (e.src == a && e.dst == b) || (e.src == b && e.dst == a) with
    | some e => e.travel_time_minutes
    | none => 30

/-- `witches_by_shift[shift]`, built in courier input order. -/
def witches_by_shift (cs : List Courier) (s : ℕ) : List String :=
  (cs.filter fun c => c.shift == s).map Courier.courier_id

/-- `get_witch_shift`. -/
def get_witch_shift (t : ℤ) : ℕ :=
  let hour := ((t / 60) % 24).toNat
  if hour < 8 then 1 else if hour < 16 then 2 else 3

/-- `cauldrons[cid]['max_volume']`. -/
def max_volume_of (inp : Inputs) (cid : String) : ℚ :=
  ((inp.cauldrons.find? fun c => c.id == cid).map Cauldron.max_volume).getD 0

/-! ## Availability checks -/

/-- `is_witch_available`: the proposed `[start - buffer, end + buffer]` window
must not overlap any committed event `[departure_from_market, unload_complete]`
of the witch.  The buffer is 15 minutes for `cauldron_009` before the midpoint
of the period, `MIN_BUFFER_BETWEEN_TRIPS` otherwise. -/
def is_witch_available (schedules : List (String × List ScheduleEvent)) (witch_id : String)
    (start_t end_t : ℤ) (cauldron_id : String) (pp : ℚ) : Bool :=
  let buffer_minutes : ℤ :=
    if cauldron_id = "cauldron_009" ∧ pp < 1/2 then 15 else MIN_BUFFER_BETWEEN_TRIPS
  let buffer_start := start_t - buffer_minutes
  let buffer_end := end_t + buffer_minutes
  (lookupD schedules witch_id []).all fun e =>
    decide (buffer_end ≤ e.departure_from_market) || decide (buffer_start ≥ e.unload_complete)

/-- `is_cauldron_available`: no existing ticket on the same cauldron may
overlap the proposed collection window or sit closer than `min_gap_minutes`. -/
def is_cauldron_available (cauldron_id : String) (collection_start collection_end : ℤ)
    (tickets : List Ticket) (min_gap_minutes : ℤ) : Bool :=
  tickets.all fun tk =>
    if tk.cauldron_id == cauldron_id then
      if ¬ (collection_end ≤ tk.collection_start_timestamp ∨
            collection_start ≥ tk.collection_timestamp) then false
      else if tk.collection_timestamp < collection_start then
        decide (min_gap_minutes ≤ collection_start - tk.collection_timestamp)
      else if collection_end < tk.collection_start_timestamp then
        decide (min_gap_minutes ≤ tk.collection_start_timestamp - collection_end)
      else true
    else true

/-! ## Simulation state -/

structure SimState where
  current_time : ℤ
  cursor : ℕ
  current_levels : List (String × ℚ)
  historical_data : List (ℤ × List (String × ℚ))
  pending_drains : List Drain
  needing : List (String × ℤ)
  collections_per : List (String × ℕ)
  witch_schedules : List (String × List ScheduleEvent)
  transport_tickets : List Ticket
  ticket_counter : ℕ

/-! ## Tick phase 1: filling (main loop lines 227-275) -/

/-- The set of cauldrons with an active drain (`start <= current_time <= end`). -/
def cauldrons_being_drained (t : ℤ) (pending : List Drain) : List String :=
  (pending.filter fun d => decide (d.start ≤ t ∧ t ≤ d.stop)).map Drain.cauldron_id

/-- One cauldron's fill update.  Returns the recorded (rounded) level, the raw
level kept in `current_levels`, and the advanced cursor. -/
def fill_one (r : ℕ → ℚ) (k : ℕ) (maxv fr lvl : ℚ) (draining : Bool) : ℚ × ℚ × ℕ :=
  if draining then
    let nl := max 0 lvl
    (round2 nl, nl, k)
  else
    let base_noise := uniformD 0.98 1.02 (r k)
    let spike := if r (k+1) < 0.01 then uniformD 0.97 1.03 (r (k+2)) else 1
    let k2 := if r (k+1) < 0.01 then k+3 else k+2
    let jitter := uniformD (-0.0005) 0.0005 (r k2) * lvl
    let fill_amount := fr * (base_noise * spike)
    let nl := max 0 (min (lvl + fill_amount + jitter) maxv)
    (round2 nl, nl, k2 + 1)

/-- The fill step over all cauldrons, in dict insertion order.  Returns the
minute (recorded) levels, the raw `current_levels`, and the cursor. -/
def fill_phase (inp : Inputs) (being : List String) (k : ℕ) :
    List (String × ℚ) → List (String × ℚ) × List (String × ℚ) × ℕ
  | [] => ([], [], k)
  | (cid, lvl) :: rest =>
    let res := fill_one inp.rng k (max_volume_of inp cid) (fill_rates cid) lvl (being.contains cid)
    let tail := fill_phase inp being res.2.2 rest
    ((cid, res.1) :: tail.1, (cid, res.2.1) :: tail.2.1, tail.2.2)

/-! ## Tick phase 2: applying and retiring drains (main loop lines 277-312) -/

/-- Apply one pending drain to the level maps (lines 280-308). -/
def apply_drain (inp : Inputs) (t : ℤ) (lv : List (String × ℚ) × List (String × ℚ))
    (d : Drain) : List (String × ℚ) × List (String × ℚ) :=
  if d.start ≤ t ∧ t ≤ d.stop then
    if 0 < d.duration ∧ 0 < d.net_drain then
      let net_drain_per_min := d.net_drain / (d.duration : ℚ)
      let lvl := lookupD lv.1 d.cauldron_id 0
      let nl := max 0 (lvl - net_drain_per_min)
      let maxv := max_volume_of inp d.cauldron_id
      let nl2 := if maxv * 0.99 ≤ lvl ∧ lvl ≤ nl
                 then max 0 (lvl - max net_drain_per_min 0.1) else nl
      (updateA lv.1 d.cauldron_id (round2 nl2), updateA lv.2 d.cauldron_id (round2 nl2))
    else lv
  else lv

/-- Apply every pending drain, in list order. -/
def drain_apply_pass (inp : Inputs) (t : ℤ) (minute current : List (String × ℚ))
    (pending : List Drain) : List (String × ℚ) × List (String × ℚ) :=
  pending.foldl (apply_drain inp t) (minute, current)

/-- Retire completed drains: the source iterates over `list(pending_drains)`
and calls `pending_drains.remove(drain)` (first equal occurrence) whenever
`current_time > drain['end']`. -/
def drain_remove_pass (t : ℤ) (pending : List Drain) : List Drain :=
  pending.foldl (fun acc d => if t > d.stop then acc.erase d else acc) pending

/-! ## Tick phase 3: collection-candidate selection (main loop lines 314-444) -/

/-- A candidate tuple `(priority, cauldron_id, level)`. -/
abbrev Cand := ℕ × String × ℚ

/-- The priority computation for one cauldron (lines 326-407): a first
`if`/`elif` chain, then an unconditional override block distinguishing
`cauldron_009` before/after the period midpoint from all other cauldrons. -/
def compute_priority (t : ℤ) (cid : String) (level maxv : ℚ) (ncoll : ℕ) : ℕ :=
  let threshold := collection_thresholds cid * maxv
  let at_capacity := maxv * 0.99 ≤ level
  let has_no := ncoll = 0
  let p1 : ℕ :=
    if at_capacity then 100
    else if maxv * 0.90 ≤ level then 98
    else if maxv * 0.80 ≤ level then 95
    else if maxv * 0.70 ≤ level then 90
    else if threshold ≤ level then 85
    else if threshold * 0.85 ≤ level then 80
    else if threshold * 0.70 ≤ level then 75
    else if threshold * 0.55 ≤ level then 70
    else if has_no ∧ maxv * 0.45 ≤ level then 70
    else if has_no ∧ maxv * 0.35 ≤ level then 65
    else if ncoll = 0 ∧ maxv * 0.30 ≤ level then 60
    else 0
  let after_mid := (1:ℚ)/2 ≤ period_progress t
  if cid = "cauldron_009" then
    if after_mid then
      if maxv * 0.60 ≤ level then 88
      else if maxv * 0.55 ≤ level then 83
      else if maxv * 0.50 ≤ level then 78
      else p1
    else
      if maxv * 0.03 ≤ level then 99
      else if maxv * 0.025 ≤ level then 98
      else if maxv * 0.02 ≤ level then 97
      else if maxv * 0.015 ≤ level then 96
      else if maxv * 0.01 ≤ level then 95
      else if maxv * 0.008 ≤ level then 94
      else if maxv * 0.005 ≤ level then 93
      else p1
  else
    if maxv * 0.025 ≤ level then 99
    else if maxv * 0.02 ≤ level then 98
    else if maxv * 0.015 ≤ level then 97
    else if maxv * 0.01 ≤ level then 96
    else if maxv * 0.008 ≤ level then 95
    else if maxv * 0.005 ≤ level then 94
    else if maxv * 0.003 ≤ level then 93
    else p1

/-- Scan `minute_levels` for candidates (lines 319-413), returning the
`at_capacity_cauldrons` and `regular_candidates` lists in iteration order. -/
def gather_candidates (inp : Inputs) (t : ℤ) (needing : List (String × ℤ))
    (collections : List (String × ℕ)) : List (String × ℚ) → List Cand × List Cand
  | [] => ([], [])
  | (cid, level) :: rest =>
    let tail := gather_candidates inp t needing collections rest
    if containsA needing cid then tail
    else
      let maxv := max_volume_of inp cid
      let p := compute_priority t cid level maxv (lookupD collections cid 0)
      if 0 < p then
        if maxv * 0.99 ≤ level then ((p, cid, level) :: tail.1, tail.2)
        else (tail.1, (p, cid, level) :: tail.2)
      else tail

/-- Python tuple comparison `a < b` on `(priority, cauldron_id, level)`. -/
def candLtB (a b : Cand) : Bool :=
  if a.1 ≠ b.1 then decide (a.1 < b.1)
  else if a.2.1 ≠ b.2.1 then strLtB a.2.1 b.2.1
  else decide (a.2.2 < b.2.2)

/-- Insert into a descending-sorted list (`list.sort(reverse=True)`). -/
def insertDesc (x : Cand) : List Cand → List Cand
  | [] => [x]
  | y :: ys => if candLtB y x then x :: y :: ys else y :: insertDesc x ys

/-- `candidates_for_collection.sort(reverse=True)`. -/
def sortDesc (l : List Cand) : List Cand := l.foldr insertDesc []

/-- Swap positions 0 and `j` of a list. -/
def swap0 (l : List Cand) (j : ℕ) : List Cand :=
  match l[j]?, l with
  | some cj, c0 :: _ => (l.set 0 cj).set j c0
  | _, _ => l

/-- First maximal element by priority (Python `max(..., key=lambda x: x[0])`
keeps the first occurrence of the maximum). -/
def firstMaxByPri (h : Cand) (tl : List Cand) : Cand :=
  tl.foldl (fun best x => if best.1 < x.1 then x else best) h

/-- The balancing passes over the sorted candidate list (lines 423-444).
If the top candidate has noticeably more collections than a similarly-scored
competitor, swap that competitor to the front; then, if some candidate has
zero collections while the front one does not, and its priority is at least
60, insert it at the front (the source's subsequent de-duplication filter
keeps every element because `list.index` always returns the first
occurrence, so the insertion is a plain cons). -/
def balance_pass (collections : List (String × ℕ)) (cands : List Cand) : List Cand :=
  match cands with
  | [] => []
  | [c] => [c]
  | top :: next :: rest =>
    let top_coll := lookupD collections top.2.1 0
    let l1 :=
      match (next :: rest).findIdx? (fun c =>
          decide ((top.1 : ℤ) - 5 ≤ (c.1 : ℤ)) &&
          decide (((lookupD collections c.2.1 0 : ℕ) : ℤ) < (top_coll : ℤ) - 2)) with
      | some i => swap0 (top :: next :: rest) (i + 1)
      | none => top :: next :: rest
    match l1 with
    | [] => []
    | h :: t =>
      let zeros := (h :: t).filter fun c => lookupD collections c.2.1 0 = 0
      match zeros with
      | [] => h :: t
      | z :: zs =>
        if 0 < lookupD collections h.2.1 0 then
          let best_zero := firstMaxByPri z zs
          if 60 ≤ best_zero.1 then best_zero :: h :: t else h :: t
        else h :: t

/-! ## Tick phase 4: dispatch (main loop lines 446-655) -/

/-- The gross/net/duration computation of lines 519-577: cap the net drain so
that the gross (net plus fill during the collection) stays within
`MAX_CAPACITY_PER_WITCH`, derive the duration from the per-cauldron base drain
rate, clamp it to `[15, 180]` minutes, and re-derive the gross; followed by
the final safety re-computation should gross still exceed the capacity.
Returns `(actual_drain, collection_duration, fill_during_collection,
gross_drain)`. -/
def computeGrossPlan (cid : String) (ad0 : ℚ) : ℚ × ℤ × ℚ × ℚ :=
  let fr := fill_rates cid
  let net_drain_rate := drain_rates cid
  let ad1 := if 0 < net_drain_rate
             then min ad0 (MAX_CAPACITY_PER_WITCH / (1 + fr / net_drain_rate)) else ad0
  let d1 : ℤ := if 0 < net_drain_rate then int_trunc (ad1 / net_drain_rate)
                else int_trunc (ad1 / 0.1)
  let d2 := max 15 (min 180 d1)
  let fdc := fr * (d2 : ℚ)
  let g := ad1 + fdc
  if MAX_CAPACITY_PER_WITCH < g ∧ 0 < net_drain_rate then
    let ad2 := MAX_CAPACITY_PER_WITCH / (1 + fr / net_drain_rate)
    let d3 := max 15 (min 180 (int_trunc (ad2 / net_drain_rate)))
    let fdc2 := fr * (d3 : ℚ)
    (ad2, d3, fdc2, ad2 + fdc2)
  else (ad1, d2, fdc, g)

/-- Ticket amount decision (lines 620-649): with probability 0.12 the ticket
is suspicious and reports the gross scaled by a `uniform(0.75, 0.92)` factor,
preserving `round(gross, 2)` in the shadow field.  Returns
`(amount_collected, shadow field, is_suspicious)`. -/
def ticket_amounts (gross uSus uFac : ℚ) : ℚ × Option ℚ × Bool :=
  if uSus < 0.12 then
    (round2 (gross * uniformD 0.75 0.92 uFac), some (round2 gross), true)
  else (round2 gross, none, false)

/-- Earliest departure from the witch's own schedule (lines 459-466):
the latest trip's `unload_complete` plus the inter-trip buffer. -/
def earliest_departure_base (t : ℤ) (schedules : List (String × List ScheduleEvent))
    (w : String) : ℤ :=
  match lookupD schedules w [] with
  | [] => t
  | e :: es =>
    let latest := es.foldl (fun b x => if b.unload_complete < x.unload_complete then x else b) e
    max t (latest.unload_complete + MIN_BUFFER_BETWEEN_TRIPS)

/-- Earliest departure accounting for the 30-minute gap after every existing
collection on the same cauldron (lines 468-476). -/
def earliest_departure_tickets (tickets : List Ticket) (cid : String) (travel_to e0 : ℤ) : ℤ :=
  tickets.foldl (fun acc tk =>
    if tk.cauldron_id == cid
    then max acc (tk.collection_timestamp + 30 - travel_to) else acc) e0

/-- The outcome of a successful dispatch. -/
structure DispatchResult where
  witch_id : String
  event : ScheduleEvent
  drain : Drain
  ticket : Ticket
deriving DecidableEq

/-- One courier's feasibility test and, on success, the scheduled event, the
registered drain and the emitted ticket (loop body, lines 454-655).  Returns
the advanced cursor in either case. -/
def attempt_dispatch (inp : Inputs) (s : SimState) (cid : String) (level : ℚ)
    (w : String) (k : ℕ) : Option DispatchResult × ℕ :=
  let r := inp.rng
  let travel_to := get_travel_time inp.network_edges "market_001" cid
  let travel_back := get_travel_time inp.network_edges cid "market_001"
  let e0 := earliest_departure_base s.current_time s.witch_schedules w
  let departure := earliest_departure_tickets s.transport_tickets cid travel_to e0
  let collection_start := departure + travel_to
  let maxv := max_volume_of inp cid
  let level_at_collection := min (level + fill_rates cid * (travel_to : ℚ)) maxv
  let after_mid := (1:ℚ)/2 ≤ period_progress s.current_time
  let pct := if cid = "cauldron_009" ∧ ¬ after_mid then uniformD 0.5 0.6 (r k)
             else if cid ≠ "cauldron_009" then uniformD 0.5 0.6 (r k)
             else uniformD 0.35 0.45 (r k)
  let amount := min (level_at_collection * pct) MAX_CAPACITY_PER_WITCH
  let est := randintD 60 90 (r (k+1))
  let fde := fill_rates cid * (est : ℚ)
  let ad_a := if amount ≤ fde then fde + uniformD 15 40 (r (k+2)) else amount
  let k3 := if amount ≤ fde then k+3 else k+2
  let ad_c := max 15 (min ad_a level_at_collection)
  let plan := computeGrossPlan cid ad_c
  let collection_end := collection_start + plan.2.1
  let arrival_back := collection_end + travel_back
  let unload_complete := arrival_back + UNLOAD_TIME
  let wavail := is_witch_available s.witch_schedules w departure unload_complete cid
                  (period_progress s.current_time)
  let cavail := is_cauldron_available cid collection_start collection_end s.transport_tickets 30
  if wavail && cavail then
    let amounts := ticket_amounts plan.2.2.2 (r k3) (r (k3+1))
    let k4 := if r k3 < 0.12 then k3 + 2 else k3 + 1
    let ev : ScheduleEvent :=
      ⟨departure, collection_start, collection_end, unload_complete, cid, plan.1, plan.2.2.2, w⟩
    let dr : Drain := ⟨cid, collection_start, collection_end, plan.2.1, plan.1⟩
    let tk : Ticket :=
      ⟨s.ticket_counter + 1, cid, collection_start, collection_end, amounts.1, w,
       amounts.2.2, amounts.2.1⟩
    (some ⟨w, ev, dr, tk⟩, k4)
  else (none, k3)

/-- Greedy first-feasible courier search (`for w in available_witches`). -/
def try_witches (inp : Inputs) (s : SimState) (cid : String) (level : ℚ) :
    List String → ℕ → Option DispatchResult × ℕ
  | [], k => (none, k)
  | w :: ws, k =>
    match attempt_dispatch inp s cid level w k with
    | (some res, k') => (some res, k')
    | (none, k') => try_witches inp s cid level ws k'

/-- The dispatch step for the top candidate (lines 446-453). -/
def dispatch_phase (inp : Inputs) (s : SimState) (cands : List Cand) (k : ℕ) :
    Option DispatchResult × ℕ :=
  match cands with
  | [] => (none, k)
  | (_, cid, level) :: _ =>
    if containsA s.needing cid then (none, k)
    else try_witches inp s cid level
          (witches_by_shift inp.couriers (get_witch_shift s.current_time)) k

/-- `witch_schedules[w].append(ev)`. -/
def appendSched (schedules : List (String × List ScheduleEvent)) (w : String)
    (ev : ScheduleEvent) : List (String × List ScheduleEvent) :=
  upsertA schedules w (lookupD schedules w [] ++ [ev])

/-- Commit a successful dispatch to the state (lines 596-653). -/
def apply_dispatch (s : SimState) (res : Option DispatchResult) : SimState :=
  match res with
  | none => s
  | some r =>
    { s with
      witch_schedules := appendSched s.witch_schedules r.witch_id r.event
      pending_drains := s.pending_drains ++ [r.drain]
      transport_tickets := s.transport_tickets ++ [r.ticket]
      collections_per := upsertA s.collections_per r.ticket.cauldron_id
        (lookupD s.collections_per r.ticket.cauldron_id 0 + 1)
      ticket_counter := s.ticket_counter + 1
      needing := upsertA s.needing r.ticket.cauldron_id r.event.collection_end }

/-! ## The tick (one iteration of the main `while` loop, lines 223-673) -/

def tick (inp : Inputs) (s : SimState) : SimState :=
  let t := s.current_time
  let being := cauldrons_being_drained t s.pending_drains
  let fills := fill_phase inp being s.cursor s.current_levels
  let minute1 := fills.1
  let current1 := fills.2.1
  let k1 := fills.2.2
  let drained := drain_apply_pass inp t minute1 current1 s.pending_drains
  let minute2 := drained.1
  let current2 := drained.2
  let pending2 := drain_remove_pass t s.pending_drains
  let gathered := gather_candidates inp t s.needing s.collections_per minute2
  let cands := balance_pass s.collections_per (sortDesc (gathered.1 ++ gathered.2))
  let s1 := { s with current_levels := current2, pending_drains := pending2 }
  let disp := dispatch_phase inp s1 cands k1
  let s2 := apply_dispatch s1 disp.1
  { s2 with
    needing := s2.needing.filter fun p => decide (t < p.2)
    historical_data := s.historical_data ++ [(t, minute2)]
    current_time := t + 1
    cursor := disp.2 }

/-! ## Initialization (lines 151-218) -/

/-- One cauldron's initial level (lines 160-170); these `random.uniform`
calls happen *before* `random.seed(12345)`, so they consume the ambient
(unseeded) stream. -/
def initial_level_one (cid : String) (maxv u : ℚ) : ℚ :=
  if cid = "cauldron_009" then uniformD (maxv * 0.001) (maxv * 0.003) u
  else uniformD (maxv * 0.20) (maxv * 0.40) u

def initial_levels (ambient : ℕ → ℚ) (cs : List Cauldron) : List (String × ℚ) :=
  cs.enum.map fun p => (p.2.id, initial_level_one p.2.id p.2.max_volume (ambient p.1))

/-- Pre-load an existing unreported drain into `pending_drains`
(lines 196-214; `drain_amount` is taken as the net amount). -/
def to_pending (u : UnreportedDrain) : Drain :=
  ⟨u.cauldron_id, u.drain_start_timestamp, u.drain_end_timestamp,
   u.duration_minutes, u.estimated_amount_drained_liters⟩

def init_state (inp : Inputs) (ambient : ℕ → ℚ) : SimState :=
  { current_time := start_time
    cursor := 0
    current_levels := initial_levels ambient inp.cauldrons
    historical_data := []
    pending_drains := inp.existing_unreported.map to_pending
    needing := []
    collections_per := []
    witch_schedules := []
    transport_tickets := []
    ticket_counter := 0 }

/-- The state after `n` iterations of the main loop. -/
def simSteps (inp : Inputs) (ambient : ℕ → ℚ) : ℕ → SimState
  | 0 => init_state inp ambient
  | n + 1 => tick inp (simSteps inp ambient n)

/-- The state when the main loop exits (`current_time > end_date`). -/
def final_state (inp : Inputs) (ambient : ℕ → ℚ) : SimState :=
  simSteps inp ambient total_minutes

/-! ## Anomaly injector (lines 675-940) -/

/-- The `(collection_start, collection_end)` windows of all tickets. -/
def ticket_times_of (tickets : List Ticket) : List (ℤ × ℤ) :=
  tickets.map fun tk => (tk.collection_start_timestamp, tk.collection_timestamp)

/-- `overlaps_with_tickets` (lines 700-715): true when the candidate window
overlaps any ticket window or sits closer than `min_gap_minutes` to one. -/
def overlaps_with_tickets (tt : List (ℤ × ℤ)) (ds de min_gap : ℤ) : Bool :=
  tt.any fun w =>
    decide (¬ (de ≤ w.1 ∨ ds ≥ w.2)) ||
    decide (de < w.1 ∧ w.1 - de < min_gap) ||
    decide (w.2 < ds ∧ ds - w.2 < min_gap)

/-- `overlaps_with_unreported_drains` (lines 717-735): same test against the
already accepted unreported drains on the same cauldron. -/
def overlaps_with_unreported_drains (added : List UnreportedDrain) (ds de : ℤ)
    (cid : String) (min_gap : ℤ) : Bool :=
  added.any fun u =>
    u.cauldron_id == cid &&
    (decide (¬ (de ≤ u.drain_start_timestamp ∨ ds ≥ u.drain_end_timestamp)) ||
     decide (de < u.drain_start_timestamp ∧ u.drain_start_timestamp - de < min_gap) ||
     decide (u.drain_end_timestamp < ds ∧ ds - u.drain_end_timestamp < min_gap))

/-- The retroactive subtraction (lines 882-896): every snapshot in the drain
window has the cauldron's level reduced by the net rate, clamped at zero. -/
def apply_retro_drain (hist : List (ℤ × List (String × ℚ))) (cid : String)
    (ds de : ℤ) (rate : ℚ) : List (ℤ × List (String × ℚ)) :=
  hist.map fun e =>
    if ds ≤ e.1 ∧ e.1 ≤ de then
      (e.1, updateA e.2 cid (max 0 (round2 (lookupD e.2 cid 0 - rate))))
    else e

/-- The injector's mutable state: the (retroactively edited) minute history,
the accepted unreported drains, and the `rng2` cursor. -/
structure InjectorState where
  hist : List (ℤ × List (String × ℚ))
  added : List UnreportedDrain
  k : ℕ

/-- Lines 800-846: derive the candidate net amount and duration for the chosen
cauldron from its level and per-cauldron rates.
Returns `(drain_amount, duration, cursor)`. -/
def inj_plan (r2 : ℕ → ℚ) (cid : String) (level : ℚ) (k2 : ℕ) : ℚ × ℤ × ℕ :=
  let fr := fill_rates cid
  let ndr := drain_rates cid
  let max_net := if 0 < ndr then MAX_CAPACITY_PER_WITCH / (1 + fr / ndr)
                 else MAX_CAPACITY_PER_WITCH
  let mnd := uniformD 15 50 (r2 k2)
  let k3 := k2 + 1
  let max_drain := min (level * 0.50) (min (level - 15) max_net)
  let da1 := if mnd < max_drain then uniformD mnd max_drain (r2 k3) else min mnd max_net
  let k4 := if mnd < max_drain then k3 + 1 else k3
  let da2 := min da1 max_net
  let dur2 := max 15 (min 180 (if 0 < ndr then int_trunc (da2 / ndr)
                               else int_trunc (da2 / 0.1)))
  (da2, dur2, k4)

/-- Lines 848-878: if the gross (net plus fill during the window) exceeds the
courier capacity, shrink the net to the capacity-derived maximum; if the
resulting extraction rate falls below 0.3 L/min, redraw a larger amount.
Returns `(drain_amount, duration, drain_end, net_rate, cursor)`. -/
def inj_adjust (r2 : ℕ → ℚ) (cid : String) (ds : ℤ) (da2 : ℚ) (dur2 : ℤ) (k4 : ℕ) :
    ℚ × ℤ × ℤ × ℚ × ℕ :=
  let fr := fill_rates cid
  let ndr := drain_rates cid
  let max_net := if 0 < ndr then MAX_CAPACITY_PER_WITCH / (1 + fr / ndr)
                 else MAX_CAPACITY_PER_WITCH
  let de := ds + dur2
  let gross := da2 + fr * (dur2 : ℚ)
  let hot := MAX_CAPACITY_PER_WITCH < gross ∧ 0 < ndr
  let da3 := if hot then max_net else da2
  let dur3 := if hot then max 15 (min 180 (int_trunc (max_net / ndr))) else dur2
  let de3 := if hot then ds + dur3 else de
  let rate3 := if 0 < dur3 then da3 / (dur3 : ℚ) else 0
  let low := rate3 < 0.3
  let da4 := if low then (if 0 < ndr then min (30 + uniformD 10 30 (r2 k4)) max_net
                          else min (30 + uniformD 10 30 (r2 k4)) MAX_CAPACITY_PER_WITCH)
             else da3
  let k5 := if low then k4 + 1 else k4
  let dur4 := if low then max 15 (min 180 (if 0 < ndr then int_trunc (da4 / ndr)
                                           else int_trunc (da4 / 0.1)))
              else dur3
  let de4 := if low then ds + dur4 else de3
  let rate4 := if low then (if 0 < dur4 then da4 / (dur4 : ℚ) else 0) else rate3
  (da4, dur4, de4, rate4, k5)

/-- Lines 880-940: read the level shortly before the window, apply the
retroactive subtraction, read the level shortly after, and accept the drain
record when at least one snapshot lies in the window and the observed drop is
at least 10 L. -/
def inj_commit (st : InjectorState) (entry : ℤ × List (String × ℚ)) (cid : String)
    (ds de4 : ℤ) (da4 : ℚ) (dur4 : ℤ) (rate4 : ℚ) (k5 : ℕ) : InjectorState :=
  let level_before :=
    (st.hist.findSome? fun e =>
      if e.1 < ds ∧ ds - e.1 < 5 then lookupO e.2 cid else none).orElse
    (fun _ => lookupO entry.2 cid)
  match level_before with
  | none => { st with k := k5 }
  | some lb =>
    let hist2 := apply_retro_drain st.hist cid ds de4 rate4
    let drain_count :=
      ((st.hist.filter fun e => decide (ds ≤ e.1 ∧ e.1 ≤ de4)).filter
        fun e => containsA e.2 cid).length
    if drain_count = 0 then { hist := hist2, added := st.added, k := k5 }
    else
      let level_after : Option ℚ :=
        match hist2.findSome? (fun (e : ℤ × List (String × ℚ)) =>
            if de4 < e.1 ∧ e.1 - de4 < 5 then lookupO e.2 cid else none) with
        | some v => some v
        | none =>
          match hist2.find? (fun (e : ℤ × List (String × ℚ)) => e.1 == de4) with
          | some e => lookupO e.2 cid
          | none => none
      match level_after with
      | none => { hist := hist2, added := st.added, k := k5 }
      | some la =>
        if lb - la < 10 then { hist := hist2, added := st.added, k := k5 }
        else
          { hist := hist2
            added := st.added ++
              [({ cauldron_id := cid, drain_start_timestamp := ds
                  drain_end_timestamp := de4
                  estimated_amount_drained_liters := round2 da4
                  duration_minutes := dur4 } : UnreportedDrain)]
            k := k5 }

/-- One iteration of the generation `while` loop (lines 742-940): pick a
random start minute and a cauldron with level above 200, derive a net amount
and duration from the per-cauldron drain rate, reject on proximity to
tickets or to accepted unreported drains, apply the subtraction to the
history, and accept when the observed drop is large enough. -/
def injector_attempt (r2 : ℕ → ℚ) (tt : List (ℤ × ℤ)) (st : InjectorState) : InjectorState :=
  let ds := start_time + randintD 200 ((total_minutes : ℤ) - 200) (r2 st.k)
  let k1 := st.k + 1
  match st.hist.find? fun e => e.1 == ds with
  | none => { st with k := k1 }
  | some entry =>
    match entry.2.filter fun p => decide (200 < p.2) with
    | [] => { st with k := k1 }
    | c0 :: rest =>
      let candidates := c0 :: rest
      let chosen := candidates.getD (choiceIdx candidates.length (r2 k1)) c0
      let cid := chosen.1
      let level := chosen.2
      let k2 := k1 + 1
      let plan := inj_plan r2 cid level k2
      let da2 := plan.1
      let dur2 := plan.2.1
      let k4 := plan.2.2
      let de := ds + dur2
      if overlaps_with_tickets tt ds de 30 then { st with k := k4 }
      else if overlaps_with_unreported_drains st.added ds de cid 30 then { st with k := k4 }
      else
        let adj := inj_adjust r2 cid ds da2 dur2 k4
        if adj.2.2.2.1 * ((adj.2.1 : ℤ) : ℚ) < 25 then { st with k := adj.2.2.2.2 }
        else inj_commit st entry cid ds adj.2.2.1 adj.1 adj.2.1 adj.2.2.2.1 adj.2.2.2.2

/-- The generation loop (lines 742-746): at most `max_attempts = 2000`
iterations, stopping once the target count is reached. -/
def injector_go (r2 : ℕ → ℚ) (tt : List (ℤ × ℤ)) (target : ℕ) :
    ℕ → InjectorState → InjectorState
  | 0, st => st
  | fuel + 1, st =>
    if target ≤ st.added.length then st
    else injector_go r2 tt target fuel (injector_attempt r2 tt st)

/-- The final `unreported_drains` collection (lines 675-940): the pre-loaded
records, extended — when fewer than the target `randint(10, 12)` are present —
by the drains accepted by the generation loop (`random.seed(54321)` switches
to the second stream; the target itself is drawn from the main stream). -/
def final_unreported (inp : Inputs) (ambient : ℕ → ℚ) : List UnreportedDrain :=
  let fs := final_state inp ambient
  let target := (randintD 10 12 (inp.rng fs.cursor)).toNat
  if inp.existing_unreported.length < target then
    (injector_go inp.rng2 (ticket_times_of fs.transport_tickets) target 2000
      ⟨fs.historical_data, inp.existing_unreported, 0⟩).added
  else inp.existing_unreported

/-- The final ticket collection. -/
def final_tickets (inp : Inputs) (ambient : ℕ → ℚ) : List Ticket :=
  (final_state inp ambient).transport_tickets

/-! ## Concrete inputs used to instantiate and to refute claims -/

/-- A random stream whose every unit draw is `1/2` (so `uniform a b` yields
the midpoint, spikes never fire, and jitter is zero). -/
def halfStream : ℕ → ℚ := fun _ => 1/2

/-- A random stream whose every unit draw is `1/4`. -/
def quarterStream : ℕ → ℚ := fun _ => 1/4

def witch1 : Courier := ⟨"witch_1", 1⟩

/-- One cauldron, no edges (travel falls back to 30 minutes), no couriers. -/
def det_inputs : Inputs :=
  ⟨[⟨"cauldron_001", 1000⟩], [], [], [], halfStream, halfStream⟩

/-- A pre-loaded unreported drain with net amount 30 L over the 15-minute
window `[4, 19]`. -/
def roundtrip_drain : UnreportedDrain := ⟨"cauldron_001", 4, 19, 30, 15⟩

def roundtrip_inputs : Inputs :=
  ⟨[⟨"cauldron_001", 1000⟩], [], [], [roundtrip_drain], halfStream, halfStream⟩

/-- A pre-loaded unreported drain covering minutes `[0, 100]`. -/
def overlap_drain : UnreportedDrain := ⟨"cauldron_001", 0, 100, 200, 100⟩

def overlap_inputs : Inputs :=
  ⟨[⟨"cauldron_001", 60⟩], [⟨"market_001", "cauldron_001", 1⟩], [witch1],
   [overlap_drain], halfStream, halfStream⟩

/-- Two small cauldrons one minute from the depot and a single shift-1
courier, no pre-loaded drains. -/
def buffer_inputs : Inputs :=
  ⟨[⟨"cauldron_001", 60⟩, ⟨"cauldron_002", 60⟩],
   [⟨"market_001", "cauldron_001", 1⟩, ⟨"market_001", "cauldron_002", 1⟩],
   [witch1], [], halfStream, halfStream⟩

/-- A pre-loaded unreported drain on minutes `[40, 60]`. -/
def anomaly_drain : UnreportedDrain := ⟨"cauldron_001", 40, 60, 30, 20⟩

def anomaly_inputs : Inputs :=
  ⟨[⟨"cauldron_001", 60⟩], [], [witch1], [anomaly_drain], halfStream, halfStream⟩

/-! ## Property vocabulary used by the claim statements -/

/-- A rational representable with two decimal places (all capacities in the
datasets are; `round(x, 2)` then cannot push a value past such a bound). -/
def centi (q : ℚ) : Prop := (q * 100).den = 1

instance (q : ℚ) : Decidable (centi q) := by unfold centi; infer_instance

/-- Every level of the map lies in `[0, max_volume]` of its cauldron. -/
def levels_ok (inp : Inputs) (l : List (String × ℚ)) : Prop :=
  ∀ p ∈ l, 0 ≤ p.2 ∧ p.2 ≤ max_volume_of inp p.1

/-- The capacity hypotheses on the input datasets. -/
def caps_ok (inp : Inputs) : Prop :=
  ∀ c ∈ inp.cauldrons, 0 ≤ c.max_volume ∧ centi c.max_volume

/-- Cauldron ids are pairwise distinct (they are keys of a Python dict). -/
def ids_ok (inp : Inputs) : Prop := (inp.cauldrons.map Cauldron.id).Nodup

instance (inp : Inputs) : Decidable (caps_ok inp) := by
  unfold caps_ok; infer_instance

instance (inp : Inputs) : Decidable (ids_ok inp) := by
  unfold ids_ok; infer_instance

/-- The level maps of the state and of every recorded snapshot are in range. -/
def state_levels_ok (inp : Inputs) (s : SimState) : Prop :=
  levels_ok inp s.current_levels ∧ ∀ e ∈ s.historical_data, levels_ok inp e.2

/-- A drain is active at instant `τ`. -/
def drain_active (d : Drain) (τ : ℤ) : Prop := d.start ≤ τ ∧ τ ≤ d.stop

instance (d : Drain) (τ : ℤ) : Decidable (drain_active d τ) := by
  unfold drain_active; infer_instance

/-- Two drains on the same cauldron keep a 30-minute gap between windows. -/
def drains_gap_ok (d1 d2 : Drain) : Prop :=
  d1.cauldron_id = d2.cauldron_id →
    d1.stop + 30 ≤ d2.start ∨ d2.stop + 30 ≤ d1.start

/-- Every pending drain carries the window of one of the emitted tickets. -/
def dispatch_linked (s : SimState) : Prop :=
  ∀ d ∈ s.pending_drains, ∃ tk ∈ s.transport_tickets,
    tk.cauldron_id = d.cauldron_id ∧ tk.collection_start_timestamp = d.start ∧
    tk.collection_timestamp = d.stop

/-- Pairwise 30-minute gaps between pending drains on a common cauldron. -/
def drains_gapped (s : SimState) : Prop :=
  s.pending_drains.Pairwise drains_gap_ok

/-- Two schedule events are separated by at least 15 minutes (the smallest
buffer `is_witch_available` ever applies). -/
def events_gap_ok (e1 e2 : ScheduleEvent) : Prop :=
  e1.unload_complete + 15 ≤ e2.departure_from_market ∨
  e2.unload_complete + 15 ≤ e1.departure_from_market

/-- Every courier's committed events are pairwise separated. -/
def scheds_gapped (s : SimState) : Prop :=
  ∀ w, (lookupD s.witch_schedules w []).Pairwise events_gap_ok

/-- The claim's reading of C7: both windows of a pair, each inflated by the
configured buffer on each side, do not overlap. -/
def buffered_windows_disjoint (e1 e2 : ScheduleEvent) : Prop :=
  e1.unload_complete + MIN_BUFFER_BETWEEN_TRIPS <
    e2.departure_from_market - MIN_BUFFER_BETWEEN_TRIPS ∨
  e2.unload_complete + MIN_BUFFER_BETWEEN_TRIPS <
    e1.departure_from_market - MIN_BUFFER_BETWEEN_TRIPS

instance : DecidableRel buffered_windows_disjoint := by
  unfold buffered_windows_disjoint DecidableRel; infer_instance

/-- C9's separation requirement between an unreported drain and a ticket:
no overlap and at least a 30-minute gap. -/
def clear_of_ticket (d : UnreportedDrain) (tk : Ticket) : Prop :=
  tk.collection_timestamp + 30 ≤ d.drain_start_timestamp ∨
  d.drain_end_timestamp + 30 ≤ tk.collection_start_timestamp

instance (d : UnreportedDrain) (tk : Ticket) : Decidable (clear_of_ticket d tk) := by
  unfold clear_of_ticket; infer_instance

/-- Per-cauldron rate bounds satisfied by every id occurring in a level map
(all twelve configured cauldrons satisfy them). -/
def rates_ok_levels (l : List (String × ℚ)) : Prop :=
  ∀ p ∈ l, 3/10 ≤ drain_rates p.1 ∧ drain_rates p.1 ≤ 9/20 ∧
    0 ≤ fill_rates p.1 ∧ fill_rates p.1 ≤ 1/5

/-- Per-cauldron rate bounds satisfied by every id occurring in a history
(all twelve configured cauldrons satisfy them). -/
def rates_ok_hist (hist : List (ℤ × List (String × ℚ))) : Prop :=
  ∀ e ∈ hist, ∀ p ∈ e.2,
    3/10 ≤ drain_rates p.1 ∧ drain_rates p.1 ≤ 9/20 ∧
    0 ≤ fill_rates p.1 ∧ fill_rates p.1 ≤ 1/5

/-- What a successful dispatch guarantees against the pre-dispatch state:
the drain and ticket share one cauldron and one collection window, the new
window starts at least 30 minutes after every existing ticket's collection
end on that cauldron, and the new trip keeps at least the smallest buffer
(15 minutes) away from every commitment of the chosen courier. -/
def dispatch_sound (s : SimState) (cid : String) (r : DispatchResult) : Prop :=
  r.drain.cauldron_id = cid ∧
  r.ticket.cauldron_id = cid ∧
  r.ticket.collection_start_timestamp = r.drain.start ∧
  r.ticket.collection_timestamp = r.drain.stop ∧
  (∀ tk ∈ s.transport_tickets, tk.cauldron_id = cid →
    tk.collection_timestamp + 30 ≤ r.drain.start) ∧
  (∀ e ∈ lookupD s.witch_schedules r.witch_id [],
    r.event.unload_complete + 15 ≤ e.departure_from_market ∨
    e.unload_complete + 15 ≤ r.event.departure_from_market)

/-- The intermediate state the dispatch phase runs against inside one tick:
levels after the fill and drain passes, completed drains retired. -/
def tick_s1 (inp : Inputs) (s : SimState) : SimState :=
  { s with
    current_levels :=
      (drain_apply_pass inp s.current_time
        (fill_phase inp (cauldrons_being_drained s.current_time s.pending_drains)
          s.cursor s.current_levels).1
        (fill_phase inp (cauldrons_being_drained s.current_time s.pending_drains)
          s.cursor s.current_levels).2.1
        s.pending_drains).2
    pending_drains := drain_remove_pass s.current_time s.pending_drains }

/-- The candidate list handed to the dispatch phase inside one tick. -/
def tick_cands (inp : Inputs) (s : SimState) : List Cand :=
  balance_pass s.collections_per (sortDesc
    ((gather_candidates inp s.current_time s.needing s.collections_per
        (drain_apply_pass inp s.current_time
          (fill_phase inp (cauldrons_being_drained s.current_time s.pending_drains)
            s.cursor s.current_levels).1
          (fill_phase inp (cauldrons_being_drained s.current_time s.pending_drains)
            s.cursor s.current_levels).2.1
          s.pending_drains).1).1 ++
     (gather_candidates inp s.current_time s.needing s.collections_per
        (drain_apply_pass inp s.current_time
          (fill_phase inp (cauldrons_being_drained s.current_time s.pending_drains)
            s.cursor s.current_levels).1
          (fill_phase inp (cauldrons_being_drained s.current_time s.pending_drains)
            s.cursor s.current_levels).2.1
          s.pending_drains).1).2))

/-- The RNG cursor position at the dispatch phase inside one tick. -/
def tick_k1 (inp : Inputs) (s : SimState) : ℕ :=
  (fill_phase inp (cauldrons_being_drained s.current_time s.pending_drains)
    s.cursor s.current_levels).2.2

/-- The drains a generation-loop run appends beyond the pre-loaded `base`
collection: each one passed, at its acceptance, both proximity tests of
lines 812-818 — against every ticket window of the run, and against every
unreported drain already in the collection at that moment (pre-loaded or
previously accepted), on the same cauldron. -/
def added_suffix_ok (tt : List (ℤ × ℤ)) :
    List UnreportedDrain → List UnreportedDrain → Prop
  | _, [] => True
  | pre, d :: rest =>
      overlaps_with_tickets tt d.drain_start_timestamp d.drain_end_timestamp 30 = false ∧
      overlaps_with_unreported_drains pre d.drain_start_timestamp d.drain_end_timestamp
        d.cauldron_id 30 = false ∧
      added_suffix_ok tt (pre ++ [d]) rest

/-! # Theorems -/

section RatReducibility

/- `Rat`'s arithmetic is `@[irreducible]` for the elaborator only; the kernel
reduces it regardless.  Restoring the default reducibility lets `decide`
evaluate the embedded simulation on concrete inputs. -/
set_option allowUnsafeReducibility true
attribute [semireducible] Rat.add Rat.mul Rat.div Rat.sub Rat.neg Rat.inv Rat.blt
  Rat.ofScientific

end RatReducibility

/-! ## Rounding lemmas -/

theorem floor_le_roundHalfEven (q : ℚ) : ⌊q⌋ ≤ roundHalfEven q := by
  unfold roundHalfEven
  split
  · exact le_refl _
  · split
    · omega
    · split <;> omega

theorem roundHalfEven_le_floor_add_one (q : ℚ) : roundHalfEven q ≤ ⌊q⌋ + 1 := by
  unfold roundHalfEven
  split
  · omega
  · split
    · omega
    · split <;> omega

theorem roundHalfEven_intCast (n : ℤ) : roundHalfEven (n : ℚ) = n := by
  unfold roundHalfEven
  rw [Int.floor_intCast]
  rw [if_pos (by norm_num)]

theorem roundHalfEven_le_of_le {q : ℚ} {n : ℤ} (h : q ≤ n) : roundHalfEven q ≤ n := by
  have hf : ⌊q⌋ ≤ n := by
    have h1 := Int.floor_le_floor h
    rwa [Int.floor_intCast] at h1
  rcases eq_or_lt_of_le hf with he | hlt
  · have hq : (n : ℚ) ≤ q := by
      rw [← he]; exact Int.floor_le q
    have hqn : q = (n : ℚ) := le_antisymm h hq
    rw [hqn, roundHalfEven_intCast]
  · have := roundHalfEven_le_floor_add_one q
    omega

theorem le_roundHalfEven_of_le {q : ℚ} {n : ℤ} (h : (n : ℚ) ≤ q) : n ≤ roundHalfEven q := by
  have h1 : n ≤ ⌊q⌋ := Int.le_floor.2 h
  have h2 := floor_le_roundHalfEven q
  omega

theorem roundHalfEven_mono {q q' : ℚ} (h : q ≤ q') : roundHalfEven q ≤ roundHalfEven q' := by
  rcases lt_or_le ⌊q⌋ ⌊q'⌋ with hf | hf
  · have h1 := roundHalfEven_le_floor_add_one q
    have h2 := floor_le_roundHalfEven q'
    omega
  · have hf' : ⌊q⌋ = ⌊q'⌋ := le_antisymm (Int.floor_le_floor h) hf
    by_cases hq : q - ⌊q⌋ < 1/2
    · have hL : roundHalfEven q = ⌊q⌋ := by
        unfold roundHalfEven; rw [if_pos hq]
      rw [hL, hf']
      exact floor_le_roundHalfEven q'
    · have hq' : ¬ (q' - ⌊q'⌋ < 1/2) := by
        push_neg at hq ⊢
        rw [← hf']; linarith
      by_cases hq2 : 1/2 < q' - ⌊q'⌋
      · have hR : roundHalfEven q' = ⌊q'⌋ + 1 := by
          unfold roundHalfEven; rw [if_neg hq', if_pos hq2]
        rw [hR, ← hf']
        exact roundHalfEven_le_floor_add_one q
      · have hqq' : q = q' := by
          push_neg at hq hq' hq2
          have h3 : (⌊q⌋ : ℚ) = (⌊q'⌋ : ℚ) := by exact_mod_cast hf'
          linarith
        rw [hqq']

theorem round2_le {q M : ℚ} (hM : centi M) (h : q ≤ M) : round2 q ≤ M := by
  unfold centi at hM
  have hM' : M * 100 = ((M * 100).num : ℚ) := by
    conv_lhs => rw [← Rat.num_div_den (M * 100)]
    rw [hM]; simp
  have h1 : q * 100 ≤ ((M * 100).num : ℚ) := by
    rw [← hM']; nlinarith
  have h2 : roundHalfEven (q * 100) ≤ (M * 100).num := roundHalfEven_le_of_le h1
  unfold round2
  rw [div_le_iff₀ (by norm_num : (0:ℚ) < 100)]
  calc (roundHalfEven (q * 100) : ℚ) ≤ ((M * 100).num : ℚ) := by exact_mod_cast h2
    _ = M * 100 := hM'.symm

theorem round2_nonneg {q : ℚ} (h : 0 ≤ q) : 0 ≤ round2 q := by
  have h1 : ((0 : ℤ) : ℚ) ≤ q * 100 := by push_cast; nlinarith
  have h2 : (0 : ℤ) ≤ roundHalfEven (q * 100) := le_roundHalfEven_of_le h1
  have h3 : (0 : ℚ) ≤ (roundHalfEven (q * 100) : ℚ) := by exact_mod_cast h2
  unfold round2
  exact div_nonneg h3 (by norm_num)

theorem round2_mono {q q' : ℚ} (h : q ≤ q') : round2 q ≤ round2 q' := by
  unfold round2
  have : roundHalfEven (q * 100) ≤ roundHalfEven (q' * 100) :=
    roundHalfEven_mono (by nlinarith)
  have hc : ((roundHalfEven (q * 100) : ℚ)) ≤ ((roundHalfEven (q' * 100) : ℚ)) := by
    exact_mod_cast this
  linarith

theorem uniformD_mem {a b u : ℚ} (hab : a ≤ b) (h0 : 0 ≤ u) (h1 : u ≤ 1) :
    a ≤ uniformD a b u ∧ uniformD a b u ≤ b := by
  unfold uniformD
  constructor <;> nlinarith

/-! ## Level-range lemmas (claim C2) -/

theorem max_volume_ok {inp : Inputs} (hc : caps_ok inp) (cid : String) :
    0 ≤ max_volume_of inp cid ∧ centi (max_volume_of inp cid) := by
  unfold max_volume_of
  cases hf : inp.cauldrons.find? fun c => c.id == cid with
  | none =>
    constructor
    · simp
    · simp only [Option.map_none', Option.getD_none]
      show centi 0
      simp [centi]
  | some c =>
    have hm : c ∈ inp.cauldrons := List.mem_of_find?_eq_some hf
    simpa using hc c hm

theorem lookupD_levels_ok {inp : Inputs} {l : List (String × ℚ)} (h : levels_ok inp l)
    (hc : caps_ok inp) (cid : String) :
    0 ≤ lookupD l cid 0 ∧ lookupD l cid 0 ≤ max_volume_of inp cid := by
  unfold lookupD
  cases hf : l.find? fun p => p.1 == cid with
  | none => exact ⟨le_refl _, (max_volume_ok hc cid).1⟩
  | some p =>
    have hm : p ∈ l := List.mem_of_find?_eq_some hf
    have hk := List.find?_some hf
    have hk' : p.1 = cid := by simpa using hk
    have := h p hm
    simpa [hk'] using this

theorem updateA_levels_ok {inp : Inputs} {l : List (String × ℚ)} {cid : String} {v : ℚ}
    (h : levels_ok inp l) (h0 : 0 ≤ v) (h1 : v ≤ max_volume_of inp cid) :
    levels_ok inp (updateA l cid v) := by
  intro q hq
  unfold updateA at hq
  rcases List.mem_map.1 hq with ⟨p, hp, hpq⟩
  by_cases hk : (p.1 == cid) = true
  · have hk' : p.1 = cid := by simpa using hk
    rw [if_pos hk] at hpq
    subst hpq
    exact ⟨h0, by simpa [hk'] using h1⟩
  · rw [if_neg hk] at hpq
    subst hpq
    exact h p hp

theorem fill_one_ok {r : ℕ → ℚ} {k : ℕ} {maxv fr lvl : ℚ} {dr : Bool}
    (hm0 : 0 ≤ maxv) (hmc : centi maxv) (hl : 0 ≤ lvl ∧ lvl ≤ maxv) :
    (0 ≤ (fill_one r k maxv fr lvl dr).1 ∧ (fill_one r k maxv fr lvl dr).1 ≤ maxv) ∧
    (0 ≤ (fill_one r k maxv fr lvl dr).2.1 ∧ (fill_one r k maxv fr lvl dr).2.1 ≤ maxv) := by
  unfold fill_one
  cases dr with
  | true =>
    have hraw1 : 0 ≤ max 0 lvl := le_max_left _ _
    have hraw2 : max 0 lvl ≤ maxv := max_le hm0 hl.2
    simp only [if_true]
    exact ⟨⟨round2_nonneg hraw1, round2_le hmc hraw2⟩, hraw1, hraw2⟩
  | false =>
    simp only [Bool.false_eq_true, if_false]
    exact ⟨⟨round2_nonneg (le_max_left _ _), round2_le hmc (max_le hm0 (min_le_right _ _))⟩,
           le_max_left _ _, max_le hm0 (min_le_right _ _)⟩

theorem fill_phase_ok {inp : Inputs} (hc : caps_ok inp) (being : List String) :
    ∀ (levels : List (String × ℚ)) (k : ℕ), levels_ok inp levels →
      levels_ok inp (fill_phase inp being k levels).1 ∧
      levels_ok inp (fill_phase inp being k levels).2.1 := by
  intro levels
  induction levels with
  | nil =>
    intro k _
    exact ⟨fun p hp => absurd hp (by simp [fill_phase]),
           fun p hp => absurd hp (by simp [fill_phase])⟩
  | cons hd tl ih =>
    intro k h
    obtain ⟨cid, lvl⟩ := hd
    have hhd : 0 ≤ lvl ∧ lvl ≤ max_volume_of inp cid := h (cid, lvl) (List.mem_cons_self _ _)
    have htl : levels_ok inp tl := fun p hp => h p (List.mem_cons_of_mem _ hp)
    have hmv := max_volume_ok hc cid
    have hone := @fill_one_ok inp.rng k (max_volume_of inp cid) (fill_rates cid) lvl
      (being.contains cid) hmv.1 hmv.2 hhd
    have hih := ih (fill_one inp.rng k (max_volume_of inp cid) (fill_rates cid) lvl
      (being.contains cid)).2.2 htl
    constructor
    · intro p hp
      simp only [fill_phase] at hp
      rcases List.mem_cons.1 hp with hpe | hp

      · subst hpe; exact hone.1
      · exact hih.1 p hp
    · intro p hp
      simp only [fill_phase] at hp
      rcases List.mem_cons.1 hp with hpe | hp
      · subst hpe; exact hone.2
      · exact hih.2 p hp

theorem apply_drain_ok {inp : Inputs} (hc : caps_ok inp) (t : ℤ)
    {mc : List (String × ℚ) × List (String × ℚ)}
    (h1 : levels_ok inp mc.1) (h2 : levels_ok inp mc.2) (d : Drain) :
    levels_ok inp (apply_drain inp t mc d).1 ∧ levels_ok inp (apply_drain inp t mc d).2 := by
  unfold apply_drain
  split
  · split
    · rename_i hact hpos
      have hlvl := lookupD_levels_ok h1 hc d.cauldron_id
      have hrate : 0 ≤ d.net_drain / (d.duration : ℚ) := by
        apply div_nonneg (le_of_lt hpos.2)
        exact_mod_cast le_of_lt hpos.1
      set lvl := lookupD mc.1 d.cauldron_id 0 with hlvldef
      have hval : ∀ x : ℚ, 0 ≤ x →
          0 ≤ max 0 (lvl - x) ∧ max 0 (lvl - x) ≤ max_volume_of inp d.cauldron_id := by
        intro x hx
        refine ⟨le_max_left _ _, max_le (max_volume_ok hc d.cauldron_id).1 ?_⟩
        calc lvl - x ≤ lvl := by linarith
          _ ≤ _ := hlvl.2
      have hnl2 : 0 ≤ (if max_volume_of inp d.cauldron_id * 0.99 ≤ lvl ∧
              lvl ≤ max 0 (lvl - d.net_drain / (d.duration : ℚ))
            then max 0 (lvl - max (d.net_drain / (d.duration : ℚ)) 0.1)
            else max 0 (lvl - d.net_drain / (d.duration : ℚ))) ∧
          (if max_volume_of inp d.cauldron_id * 0.99 ≤ lvl ∧
              lvl ≤ max 0 (lvl - d.net_drain / (d.duration : ℚ))
            then max 0 (lvl - max (d.net_drain / (d.duration : ℚ)) 0.1)
            else max 0 (lvl - d.net_drain / (d.duration : ℚ))) ≤
            max_volume_of inp d.cauldron_id := by
        split
        · exact hval _ (le_trans hrate (le_max_left _ _))
        · exact hval _ hrate
      have hmc := max_volume_ok hc d.cauldron_id
      exact ⟨updateA_levels_ok h1 (round2_nonneg hnl2.1) (round2_le hmc.2 hnl2.2),
             updateA_levels_ok h2 (round2_nonneg hnl2.1) (round2_le hmc.2 hnl2.2)⟩
    · exact ⟨h1, h2⟩
  · exact ⟨h1, h2⟩

theorem drain_apply_pass_ok {inp : Inputs} (hc : caps_ok inp) (t : ℤ)
    (pending : List Drain) :
    ∀ (minute current : List (String × ℚ)), levels_ok inp minute → levels_ok inp current →
      levels_ok inp (drain_apply_pass inp t minute current pending).1 ∧
      levels_ok inp (drain_apply_pass inp t minute current pending).2 := by
  unfold drain_apply_pass
  induction pending with
  | nil => intro minute current h1 h2; exact ⟨h1, h2⟩
  | cons d ds ih =>
    intro minute current h1 h2
    simp only [List.foldl_cons]
    have hd := @apply_drain_ok inp hc t (minute, current) h1 h2 d
    have := ih (apply_drain inp t (minute, current) d).1 (apply_drain inp t (minute, current) d).2
      hd.1 hd.2
    simpa using this

theorem initial_level_one_mem {cid : String} {maxv u : ℚ} (hm : 0 ≤ maxv)
    (h0 : 0 ≤ u) (h1 : u ≤ 1) :
    0 ≤ initial_level_one cid maxv u ∧ initial_level_one cid maxv u ≤ maxv := by
  unfold initial_level_one
  split
  · have h := @uniformD_mem (maxv * 0.001) (maxv * 0.003) _ (by nlinarith) h0 h1
    constructor <;> nlinarith [h.1, h.2]
  · have h := @uniformD_mem (maxv * 0.20) (maxv * 0.40) _ (by nlinarith) h0 h1
    constructor <;> nlinarith [h.1, h.2]

theorem find_max_volume_nodup {l : List Cauldron} (hid : (l.map Cauldron.id).Nodup)
    {c : Cauldron} (hm : c ∈ l) :
    ((l.find? fun x => x.id == c.id).map Cauldron.max_volume).getD 0 = c.max_volume := by
  induction l with
  | nil => cases hm
  | cons hd tl ih =>
    rcases List.mem_cons.1 hm with rfl | hm'
    · rw [List.find?_cons_of_pos _ (by simp)]
      rfl
    · have hne : hd.id ≠ c.id := by
        intro he
        have hmem : c.id ∈ tl.map Cauldron.id := List.mem_map_of_mem _ hm'
        rw [List.map_cons] at hid
        exact (List.nodup_cons.1 hid).1 (he ▸ hmem)

      rw [List.find?_cons_of_neg _ (by simpa using hne)]
      exact ih (List.nodup_cons.1 (by rwa [List.map_cons] at hid)).2 hm'

theorem max_volume_of_mem {inp : Inputs} (hid : ids_ok inp) {c : Cauldron}
    (hm : c ∈ inp.cauldrons) : max_volume_of inp c.id = c.max_volume :=
  find_max_volume_nodup hid hm

theorem initial_levels_ok {inp : Inputs} (hc : caps_ok inp) (hid : ids_ok inp)
    {ambient : ℕ → ℚ} (ha : ∀ i, 0 ≤ ambient i ∧ ambient i ≤ 1) :
    levels_ok inp (initial_levels ambient inp.cauldrons) := by
  intro p hp
  unfold initial_levels at hp
  rcases List.mem_map.1 hp with ⟨q, hq, rfl⟩
  have hqc : q.2 ∈ inp.cauldrons := by
    have h1 := List.mem_enum_iff_getElem?.1 hq
    exact List.getElem?_mem h1
  have hcap := hc q.2 hqc
  have := @initial_level_one_mem q.2.id q.2.max_volume (ambient q.1) hcap.1
    (ha q.1).1 (ha q.1).2
  refine ⟨this.1, ?_⟩
  show initial_level_one q.2.id q.2.max_volume (ambient q.1) ≤ max_volume_of inp q.2.id
  rw [max_volume_of_mem hid hqc]
  exact this.2

/-! ## Structural facts about `apply_dispatch` and `tick` -/

theorem apply_dispatch_current_levels (s : SimState) (r : Option DispatchResult) :
    (apply_dispatch s r).current_levels = s.current_levels := by
  cases r <;> rfl

theorem apply_dispatch_historical_data (s : SimState) (r : Option DispatchResult) :
    (apply_dispatch s r).historical_data = s.historical_data := by
  cases r <;> rfl

theorem apply_dispatch_time (s : SimState) (r : Option DispatchResult) :
    (apply_dispatch s r).current_time = s.current_time := by
  cases r <;> rfl

theorem apply_dispatch_tickets (s : SimState) (r : Option DispatchResult) :
    ∃ l, (apply_dispatch s r).transport_tickets = s.transport_tickets ++ l := by
  cases r with
  | none => exact ⟨[], by simp [apply_dispatch]⟩
  | some d => exact ⟨[d.ticket], rfl⟩

theorem tick_current_levels (inp : Inputs) (s : SimState) :
    (tick inp s).current_levels =
      (drain_apply_pass inp s.current_time
        (fill_phase inp (cauldrons_being_drained s.current_time s.pending_drains)
          s.cursor s.current_levels).1
        (fill_phase inp (cauldrons_being_drained s.current_time s.pending_drains)
          s.cursor s.current_levels).2.1
        s.pending_drains).2 := by
  simp only [tick, apply_dispatch_current_levels]

theorem tick_historical_data (inp : Inputs) (s : SimState) :
    (tick inp s).historical_data = s.historical_data ++
      [(s.current_time,
        (drain_apply_pass inp s.current_time
          (fill_phase inp (cauldrons_being_drained s.current_time s.pending_drains)
            s.cursor s.current_levels).1
          (fill_phase inp (cauldrons_being_drained s.current_time s.pending_drains)
            s.cursor s.current_levels).2.1
          s.pending_drains).1)] := by
  simp only [tick]

theorem tick_time (inp : Inputs) (s : SimState) :
    (tick inp s).current_time = s.current_time + 1 := by
  simp only [tick]

theorem tick_tickets (inp : Inputs) (s : SimState) :
    ∃ l, (tick inp s).transport_tickets = s.transport_tickets ++ l := by
  have h := apply_dispatch_tickets
    { s with
      current_levels :=
        (drain_apply_pass inp s.current_time
          (fill_phase inp (cauldrons_being_drained s.current_time s.pending_drains)
            s.cursor s.current_levels).1
          (fill_phase inp (cauldrons_being_drained s.current_time s.pending_drains)
            s.cursor s.current_levels).2.1
          s.pending_drains).2
      pending_drains := drain_remove_pass s.current_time s.pending_drains }
  simp only [tick]
  exact h _

/-! ## Full-run level invariant (claim C2) -/

theorem apply_retro_drain_ok {inp : Inputs} (hc : caps_ok inp)
    {hist : List (ℤ × List (String × ℚ))} {cid : String} {ds de : ℤ} {rate : ℚ}
    (hrate : 0 ≤ rate) (hh : ∀ e ∈ hist, levels_ok inp e.2) :
    ∀ e ∈ apply_retro_drain hist cid ds de rate, levels_ok inp e.2 := by
  intro e he
  unfold apply_retro_drain at he
  rcases List.mem_map.1 he with ⟨e0, he0, hfe⟩
  by_cases hw : ds ≤ e0.1 ∧ e0.1 ≤ de
  · rw [if_pos hw] at hfe
    subst hfe
    have hl := lookupD_levels_ok (hh e0 he0) hc cid
    have hb : round2 (lookupD e0.2 cid 0 - rate) ≤ max_volume_of inp cid := by
      apply round2_le (max_volume_ok hc cid).2
      calc lookupD e0.2 cid 0 - rate ≤ lookupD e0.2 cid 0 := by linarith
        _ ≤ _ := hl.2
    exact updateA_levels_ok (hh e0 he0) (le_max_left _ _)
      (max_le (max_volume_ok hc cid).1 hb)
  · rw [if_neg hw] at hfe
    subst hfe
    exact hh e0 he0

theorem simSteps_levels_ok {inp : Inputs} (hc : caps_ok inp) (hid : ids_ok inp)
    {amb : ℕ → ℚ} (ha : ∀ i, 0 ≤ amb i ∧ amb i ≤ 1) :
    ∀ n, state_levels_ok inp (simSteps inp amb n) := by
  intro n
  induction n with
  | zero =>
    exact ⟨initial_levels_ok hc hid ha, fun e he => absurd he (by simp [simSteps, init_state])⟩
  | succ n ih =>
    obtain ⟨h1, h2⟩ := ih
    have hf := fill_phase_ok hc (cauldrons_being_drained (simSteps inp amb n).current_time
      (simSteps inp amb n).pending_drains) (simSteps inp amb n).current_levels
      (simSteps inp amb n).cursor h1
    have hd := drain_apply_pass_ok hc (simSteps inp amb n).current_time
      (simSteps inp amb n).pending_drains _ _ hf.1 hf.2
    constructor
    · show levels_ok inp (tick inp (simSteps inp amb n)).current_levels
      rw [tick_current_levels]
      exact hd.2
    · show ∀ e ∈ (tick inp (simSteps inp amb n)).historical_data, levels_ok inp e.2
      rw [tick_historical_data]
      intro e he
      rcases List.mem_append.1 he with he | he
      · exact h2 e he
      · have he' := List.mem_singleton.1 he
        subst he'
        exact hd.1

/-- C2: for every node and every simulated tick, the recorded level satisfies
`0 ≤ level ≤ max_volume` — in the running state and in every recorded
snapshot — and each individual phase (the fill step, the drain step, and the
retroactive anomaly subtraction) preserves that range, provided the input
capacities are nonnegative two-decimal values with distinct ids and the
random draws are unit draws. -/
theorem claim2_levels_in_range (inp : Inputs) (amb : ℕ → ℚ)
    (hc : caps_ok inp) (hid : ids_ok inp) (ha : ∀ i, 0 ≤ amb i ∧ amb i ≤ 1) (n : ℕ) :
    (levels_ok inp (simSteps inp amb n).current_levels ∧
     ∀ e ∈ (simSteps inp amb n).historical_data, levels_ok inp e.2) ∧
    (∀ (being : List String) (k : ℕ) (levels : List (String × ℚ)),
       levels_ok inp levels →
       levels_ok inp (fill_phase inp being k levels).1 ∧
       levels_ok inp (fill_phase inp being k levels).2.1) ∧
    (∀ (t : ℤ) (minute current : List (String × ℚ)) (pending : List Drain),
       levels_ok inp minute → levels_ok inp current →
       levels_ok inp (drain_apply_pass inp t minute current pending).1 ∧
       levels_ok inp (drain_apply_pass inp t minute current pending).2) ∧
    (∀ (hist : List (ℤ × List (String × ℚ))) (cid : String) (ds de : ℤ) (rate : ℚ),
       0 ≤ rate → (∀ e ∈ hist, levels_ok inp e.2) →
       ∀ e ∈ apply_retro_drain hist cid ds de rate, levels_ok inp e.2) := by
  refine ⟨simSteps_levels_ok hc hid ha n, ?_, ?_, ?_⟩
  · intro being k levels h
    exact fill_phase_ok hc being levels k h
  · intro t minute current pending h1 h2
    exact drain_apply_pass_ok hc t pending minute current h1 h2
  · intro hist cid ds de rate hrate hh
    exact apply_retro_drain_ok hc hrate hh

/-- Witness for C2 at a concrete input and run length. -/
theorem claim2_levels_in_range_witness :
    levels_ok det_inputs (simSteps det_inputs halfStream 2).current_levels ∧
    ∀ e ∈ (simSteps det_inputs halfStream 2).historical_data, levels_ok det_inputs e.2 :=
  (claim2_levels_in_range det_inputs halfStream (by decide) (by decide)
    (fun _ => ⟨by norm_num [halfStream], by norm_num [halfStream]⟩) 2).1

/-! ## Drain retirement (claim C8) -/

theorem erase_pass_cons_keep {t : ℤ} {h : Drain} (hh : ¬ t > h.stop) :
    ∀ (iter cur : List Drain),
      iter.foldl (fun acc d => if t > d.stop then acc.erase d else acc) (h :: cur) =
        h :: iter.foldl (fun acc d => if t > d.stop then acc.erase d else acc) cur := by
  intro iter
  induction iter with
  | nil => intro cur; rfl
  | cons d ds ih =>
    intro cur
    simp only [List.foldl_cons]
    by_cases hd : t > d.stop
    · rw [if_pos hd, if_pos hd]
      have hne : h ≠ d := by
        intro he
        exact hh (he ▸ hd)
      rw [List.erase_cons]
      rw [if_neg (by simpa using hne)]
      exact ih _
    · rw [if_neg hd, if_neg hd]
      exact ih _

theorem drain_remove_pass_eq_filter (t : ℤ) :
    ∀ pending : List Drain,
      drain_remove_pass t pending = pending.filter fun d => decide (t ≤ d.stop) := by
  intro pending
  unfold drain_remove_pass
  suffices h : ∀ l : List Drain,
      l.foldl (fun acc d => if t > d.stop then acc.erase d else acc) l =
        l.filter fun d => decide (t ≤ d.stop) from h pending
  intro l
  induction l with
  | nil => rfl
  | cons hd tl ih =>
    simp only [List.foldl_cons]
    by_cases hh : t > hd.stop
    · rw [if_pos hh]
      rw [List.erase_cons_head]
      rw [ih]
      have : (decide (t ≤ hd.stop)) = false := by
        simp only [decide_eq_false_iff_not]
        omega
      rw [List.filter_cons, this]
      simp
    · rw [if_neg hh]
      rw [erase_pass_cons_keep hh]
      rw [ih]
      have : (decide (t ≤ hd.stop)) = true := by
        simp only [decide_eq_true_eq]
        omega
      rw [List.filter_cons, this]
      simp

theorem apply_drain_inactive {inp : Inputs} {t : ℤ} {d : Drain}
    (hd : ¬ (d.start ≤ t ∧ t ≤ d.stop)) (mc : List (String × ℚ) × List (String × ℚ)) :
    apply_drain inp t mc d = mc := by
  unfold apply_drain
  rw [if_neg hd]

/-- C8: a drain is retired by the first tick strictly after its end time —
the retirement pass behaves exactly like filtering out every expired drain,
unconditionally — and an expired drain contributes nothing to the level
updates of the drain-application pass. -/
theorem claim8_drain_retirement (inp : Inputs) (t : ℤ) (pending : List Drain)
    (d : Drain) (hmem : d ∈ pending) (hexp : t > d.stop) :
    d ∉ drain_remove_pass t pending ∧
    drain_remove_pass t pending = (pending.filter fun d' => decide (t ≤ d'.stop)) ∧
    ∀ (minute current : List (String × ℚ)) (l1 l2 : List Drain),
      pending = l1 ++ d :: l2 →
      drain_apply_pass inp t minute current pending =
        drain_apply_pass inp t minute current (l1 ++ l2) := by
  refine ⟨?_, drain_remove_pass_eq_filter t pending, ?_⟩
  · rw [drain_remove_pass_eq_filter t pending]
    intro hmem'
    have := List.of_mem_filter hmem'
    simp only [decide_eq_true_eq] at this
    omega
  · intro minute current l1 l2 hsplit
    subst hsplit
    unfold drain_apply_pass
    rw [List.foldl_append, List.foldl_append]
    rw [List.foldl_cons]
    rw [apply_drain_inactive (by omega)]

/-- Witness for C8 at a concrete pending list and tick. -/
theorem claim8_drain_retirement_witness :
    to_pending overlap_drain ∉ drain_remove_pass 101 [to_pending overlap_drain] ∧
    drain_remove_pass 101 [to_pending overlap_drain] =
      ([to_pending overlap_drain].filter fun d' => decide ((101:ℤ) ≤ d'.stop)) ∧
    ∀ (minute current : List (String × ℚ)) (l1 l2 : List Drain),
      [to_pending overlap_drain] = l1 ++ to_pending overlap_drain :: l2 →
      drain_apply_pass overlap_inputs 101 minute current [to_pending overlap_drain] =
        drain_apply_pass overlap_inputs 101 minute current (l1 ++ l2) :=
  claim8_drain_retirement overlap_inputs 101 [to_pending overlap_drain]
    (to_pending overlap_drain) (by decide) (by decide)

/-! ## Truncation lemmas -/

theorem int_trunc_eq_floor {q : ℚ} (h : 0 ≤ q) : int_trunc q = ⌊q⌋ := by
  unfold int_trunc
  rw [Rat.floor_def]
  exact Int.tdiv_eq_ediv (Rat.num_nonneg.2 h) (by positivity)

theorem int_trunc_le {q : ℚ} (h : 0 ≤ q) : (int_trunc q : ℚ) ≤ q := by
  rw [int_trunc_eq_floor h]
  exact Int.floor_le q

theorem int_trunc_nonpos {q : ℚ} (h : q ≤ 0) : int_trunc q ≤ 0 := by
  unfold int_trunc
  have hnum : q.num ≤ 0 := Rat.num_nonpos.2 h
  have h2 : 0 ≤ (-q.num).tdiv (q.den : ℤ) := Int.tdiv_nonneg (by omega) (by positivity)
  rw [Int.neg_tdiv] at h2
  omega

/-! ## The gross/net/duration capacity computation (claim C5) -/

theorem computeGrossPlan_bound {ndr fr : ℚ} (hpos : 0 < ndr) (hfr : 0 ≤ fr)
    (hsmall : 15 * (ndr + fr) ≤ 100) {ad1 : ℚ} (had : ad1 ≤ 100 / (1 + fr / ndr)) :
    ad1 + fr * ((max 15 (min 180 (int_trunc (ad1 / ndr))) : ℤ) : ℚ) ≤ 100 := by
  set mn := 100 / (1 + fr / ndr) with hmn
  have hden : 0 < 1 + fr / ndr := by positivity
  have hkey2 : mn * (ndr + fr) = 100 * ndr := by
    rw [hmn]
    field_simp
    try ring
  set T := int_trunc (ad1 / ndr) with hT
  by_cases hT15 : T ≤ 15
  · have hD : max 15 (min 180 T) = 15 := by omega
    rw [hD]
    have h1 : 15 * ndr * (ndr + fr) ≤ 100 * ndr := by nlinarith
    have hmn15 : 15 * ndr ≤ mn := by nlinarith
    have h2 : ad1 * ndr ≤ mn * ndr := by nlinarith
    have h3 : 0 ≤ fr * (mn - 15 * ndr) := mul_nonneg hfr (by linarith)
    push_cast
    nlinarith
  · push_neg at hT15
    have hD2 : max 15 (min 180 T) = min 180 T := by omega
    rw [hD2]
    have hDle : min 180 T ≤ T := min_le_right _ _
    have hq : 0 ≤ ad1 / ndr := by
      by_contra hq
      push_neg at hq
      have := int_trunc_nonpos (le_of_lt hq)
      omega
    have hTle : (T : ℚ) ≤ ad1 / ndr := int_trunc_le hq
    have hDleQ : ((min 180 T : ℤ) : ℚ) ≤ ad1 / ndr := by
      calc ((min 180 T : ℤ) : ℚ) ≤ (T : ℚ) := by exact_mod_cast hDle
        _ ≤ ad1 / ndr := hTle
    have had1 : 0 ≤ ad1 := by
      have := (div_nonneg_iff.1 hq)
      rcases this with ⟨h, _⟩ | ⟨_, h⟩
      · exact h
      · nlinarith
    have hstep : ad1 + fr * ((min 180 T : ℤ) : ℚ) ≤ ad1 + fr * (ad1 / ndr) := by nlinarith
    have hfin : ad1 + fr * (ad1 / ndr) ≤ 100 := by
      have he : ad1 + fr * (ad1 / ndr) = ad1 * (1 + fr / ndr) := by
        field_simp
        ring
      rw [he]
      calc ad1 * (1 + fr / ndr) ≤ mn * (1 + fr / ndr) := by nlinarith
        _ = 100 := div_mul_cancel₀ _ (ne_of_gt hden)
    linarith

theorem computeGrossPlan_spec (cid : String) (ad0 : ℚ)
    (hpos : 0 < drain_rates cid) (hfr : 0 ≤ fill_rates cid)
    (hsmall : 15 * (drain_rates cid + fill_rates cid) ≤ 100) :
    (computeGrossPlan cid ad0).2.2.2 =
      (computeGrossPlan cid ad0).1 +
        fill_rates cid * (((computeGrossPlan cid ad0).2.1 : ℤ) : ℚ) ∧
    (computeGrossPlan cid ad0).2.2.2 ≤ MAX_CAPACITY_PER_WITCH ∧
    15 ≤ (computeGrossPlan cid ad0).2.1 ∧ (computeGrossPlan cid ad0).2.1 ≤ 180 := by
  have hbound := @computeGrossPlan_bound (drain_rates cid) (fill_rates cid) hpos hfr hsmall
    (min ad0 (100 / (1 + fill_rates cid / drain_rates cid)))
    (min_le_right _ _)
  unfold computeGrossPlan
  simp only [if_pos hpos]
  rw [if_neg]
  · exact ⟨rfl, hbound, le_max_left _ _, max_le (by norm_num) (min_le_left _ _)⟩
  · rintro ⟨hgt, -⟩
    exact absurd hbound (not_le.2 hgt)

/-- The twelve configured cauldrons all have a positive base drain rate, a
nonnegative fill rate, and rates small enough for the 15-minute duration
floor to stay within the courier capacity. -/
theorem cauldron_rates_fact : ∀ c ∈ cauldron_ids,
    0 < drain_rates c ∧ 0 ≤ fill_rates c ∧
    15 * (drain_rates c + fill_rates c) ≤ 100 := by decide

/-- C5: for every configured cauldron and any incoming net-amount request,
the dispatched plan's gross equals net plus fill during the collection
window, and the gross never exceeds `MAX_CAPACITY_PER_WITCH`. -/
theorem claim5_gross_capacity (cid : String) (hcid : cid ∈ cauldron_ids) (ad0 : ℚ) :
    (computeGrossPlan cid ad0).2.2.2 =
      (computeGrossPlan cid ad0).1 +
        fill_rates cid * (((computeGrossPlan cid ad0).2.1 : ℤ) : ℚ) ∧
    (computeGrossPlan cid ad0).2.2.2 ≤ MAX_CAPACITY_PER_WITCH := by
  obtain ⟨h1, h2, h3⟩ := cauldron_rates_fact cid hcid
  obtain ⟨he, hb, -, -⟩ := computeGrossPlan_spec cid ad0 h1 h2 h3
  exact ⟨he, hb⟩

/-- Witness for C5 at a concrete cauldron and request. -/
theorem claim5_gross_capacity_witness :
    (computeGrossPlan "cauldron_001" 50).2.2.2 =
      (computeGrossPlan "cauldron_001" 50).1 +
        fill_rates "cauldron_001" * (((computeGrossPlan "cauldron_001" 50).2.1 : ℤ) : ℚ) ∧
    (computeGrossPlan "cauldron_001" 50).2.2.2 ≤ MAX_CAPACITY_PER_WITCH :=
  claim5_gross_capacity "cauldron_001" (by decide) 50

/-! ## Ticket amounts (claim C6) -/

/-- C6: a suspicious ticket preserves the true amount in its shadow field and
that amount is at least the reported one; a non-suspicious ticket has no
shadow field and reports exactly the (rounded) true gross amount. -/
theorem claim6_ticket_amounts (gross uS uF : ℚ) (hg : 0 ≤ gross)
    (h0 : 0 ≤ uF) (h1 : uF ≤ 1) :
    ((ticket_amounts gross uS uF).2.2 = true →
       ∃ a, (ticket_amounts gross uS uF).2.1 = some a ∧
         (ticket_amounts gross uS uF).1 ≤ a) ∧
    ((ticket_amounts gross uS uF).2.2 = false →
       (ticket_amounts gross uS uF).2.1 = none ∧
       (ticket_amounts gross uS uF).1 = round2 gross) := by
  unfold ticket_amounts
  by_cases hs : uS < 0.12
  · rw [if_pos hs]
    refine ⟨fun _ => ⟨round2 gross, rfl, ?_⟩, fun hfalse => absurd hfalse (by simp)⟩
    apply round2_mono
    have hf := @uniformD_mem (0.75:ℚ) 0.92 _ (by norm_num) h0 h1
    nlinarith [hf.1, hf.2]
  · rw [if_neg hs]
    exact ⟨fun htrue => absurd htrue (by simp), fun _ => ⟨rfl, rfl⟩⟩

/-- Witness for C6 on the suspicious branch at a concrete gross and draws. -/
theorem claim6_ticket_amounts_witness :
    ((ticket_amounts 50 0 (1/2)).2.2 = true →
       ∃ a, (ticket_amounts 50 0 (1/2)).2.1 = some a ∧
         (ticket_amounts 50 0 (1/2)).1 ≤ a) ∧
    ((ticket_amounts 50 0 (1/2)).2.2 = false →
       (ticket_amounts 50 0 (1/2)).2.1 = none ∧
       (ticket_amounts 50 0 (1/2)).1 = round2 50) :=
  claim6_ticket_amounts 50 0 (1/2) (by norm_num) (by norm_num) (by norm_num)

/-! ## Minute history shape (claim C10) -/

theorem simSteps_time (inp : Inputs) (amb : ℕ → ℚ) :
    ∀ n, (simSteps inp amb n).current_time = start_time + n := by
  intro n
  induction n with
  | zero => simp [simSteps, init_state]
  | succ n ih =>
    show (tick inp (simSteps inp amb n)).current_time = start_time + (n + 1 : ℕ)
    rw [tick_time, ih]
    push_cast
    ring

theorem simSteps_history_map (inp : Inputs) (amb : ℕ → ℚ) :
    ∀ n, (simSteps inp amb n).historical_data.map Prod.fst =
      (List.range n).map fun (i : ℕ) => start_time + (i : ℤ) := by
  intro n
  induction n with
  | zero => simp [simSteps, init_state]
  | succ n ih =>
    show (tick inp (simSteps inp amb n)).historical_data.map Prod.fst = _
    rw [tick_historical_data, List.map_append, ih, List.range_succ, List.map_append]
    simp [simSteps_time]

/-- C10: the generated minute history holds exactly one snapshot per
simulated minute: timestamps start at the configured start time, increase in
steps of exactly one minute through the configured end time, and the number
of snapshots equals the number of minutes in the closed interval. -/
theorem claim10_minute_history (inp : Inputs) (amb : ℕ → ℚ) :
    (final_state inp amb).historical_data.map Prod.fst =
      (List.range total_minutes).map (fun (i : ℕ) => start_time + (i : ℤ)) ∧
    (final_state inp amb).historical_data.length = total_minutes ∧
    start_time + ((total_minutes : ℤ) - 1) = end_time := by
  refine ⟨simSteps_history_map inp amb total_minutes, ?_,
    by norm_num [start_time, end_time, total_minutes]⟩
  have h := congrArg List.length (simSteps_history_map inp amb total_minutes)
  simpa using h

/-! ## Determinism (claim C1) -/

set_option maxRecDepth 8000

/-- C1: refuted on the code.  `initial_levels` is drawn from the global
generator *before* `random.seed(12345)` executes, so two runs with the same
seed and the same input datasets — differing only in the interpreter's
pre-seed generator state (the `ambient` stream) — already produce different
minute histories at the very first snapshot.  Here both runs use
`det_inputs` (identical datasets and identical seeded stream `halfStream`),
yet their recorded histories differ. -/
theorem claim1_seed_insufficient :
    (simSteps det_inputs halfStream 1).historical_data ≠
      (simSteps det_inputs quarterStream 1).historical_data := by decide

/-! ## Per-drain round trip (claim C3) -/

/-- C3: refuted on the code and on the code's own comment ("the levels will
drop by exactly `actual_drain` over the duration").  The main loop applies a
drain's per-minute rate `net/duration` at every tick `start ≤ t ≤ end`
inclusive, i.e. `duration + 1` times.  For the pre-loaded drain of
`roundtrip_inputs` (net 30 L, duration 15 min, window `[4, 19]`, no fill
applied during the window) the recorded level drops by exactly
`32 = 30·16/15` liters between the snapshots just before and at the end of
the window — off by one full minute's rate from the declared net amount, with
every arithmetic step exact (no rounding error is involved). -/
theorem claim3_roundtrip_off_by_one :
    roundtrip_drain.estimated_amount_drained_liters = 30 ∧
    roundtrip_drain.duration_minutes = 15 ∧
    lookupD ((simSteps roundtrip_inputs halfStream 20).historical_data.getD 3
        (0, [])).2 "cauldron_001" 0 -
      lookupD ((simSteps roundtrip_inputs halfStream 20).historical_data.getD 19
        (0, [])).2 "cauldron_001" 0 = 32 ∧
    (32 : ℚ) = 30 + 30 / 15 ∧ (32 : ℚ) ≠ 30 := by decide

/-! ## Counterexamples to the one-active-drain and buffered-window claims -/

/-- C4 counterexample: the active-drain set can hold two drains on the same
node at the same instant.  With a pre-loaded unreported drain on
`cauldron_001` covering `[0, 100]`, the dispatcher — which never consults
pre-loaded drains — registers a second drain on the same cauldron during
tick 0, and both are active at instant 1. -/
theorem claim4_counterexample :
    ¬ (∀ (inp : Inputs) (amb : ℕ → ℚ) (n : ℕ) (τ : ℤ) (c : String),
        ((simSteps inp amb n).pending_drains.filter fun d =>
            d.cauldron_id == c && decide (drain_active d τ)).length ≤ 1) := by
  intro h
  have h2 := h overlap_inputs halfStream 1 1 "cauldron_001"
  revert h2
  decide

theorem edt_ge_init (tickets : List Ticket) (cid : String) (travel : ℤ) :
    ∀ e0 : ℤ, e0 ≤ earliest_departure_tickets tickets cid travel e0 := by
  unfold earliest_departure_tickets
  induction tickets with
  | nil => intro e0; exact le_refl _
  | cons tk tl ih =>
    intro e0
    simp only [List.foldl_cons]
    split
    · exact le_trans (le_max_left _ _) (ih _)
    · exact ih _

theorem edt_ge_ticket {tickets : List Ticket} {cid : String} {travel : ℤ} :
    ∀ (e0 : ℤ), ∀ tk ∈ tickets, tk.cauldron_id = cid →
      tk.collection_timestamp + 30 - travel ≤
        earliest_departure_tickets tickets cid travel e0 := by
  induction tickets with
  | nil => intro e0 tk h; cases h
  | cons hd tl ih =>
    intro e0 tk hmem heq
    rcases List.mem_cons.1 hmem with rfl | hmem'
    · show tk.collection_timestamp + 30 - travel ≤
        earliest_departure_tickets (tk :: tl) cid travel e0
      unfold earliest_departure_tickets
      simp only [List.foldl_cons]
      rw [if_pos (by simpa using heq)]
      exact le_trans (le_max_right _ _) (edt_ge_init tl cid travel _)
    · show tk.collection_timestamp + 30 - travel ≤
        earliest_departure_tickets (hd :: tl) cid travel e0
      unfold earliest_departure_tickets
      simp only [List.foldl_cons]
      split
      · exact ih _ tk hmem' heq
      · exact ih _ tk hmem' heq

theorem is_witch_available_sound {schedules : List (String × List ScheduleEvent)}
    {w : String} {st en : ℤ} {cid : String} {pp : ℚ}
    (h : is_witch_available schedules w st en cid pp = true) :
    ∀ e ∈ lookupD schedules w [],
      en + 15 ≤ e.departure_from_market ∨ e.unload_complete + 15 ≤ st := by
  intro e he
  unfold is_witch_available at h
  have h2 := List.all_eq_true.1 h e he
  simp only [Bool.or_eq_true, decide_eq_true_eq] at h2
  by_cases hb : cid = "cauldron_009" ∧ pp < 1/2
  · rw [if_pos hb] at h2
    rcases h2 with h2 | h2
    · left; omega
    · right; omega
  · rw [if_neg hb] at h2
    unfold MIN_BUFFER_BETWEEN_TRIPS at h2
    rcases h2 with h2 | h2
    · left; omega
    · right; omega

theorem attempt_dispatch_sound {inp : Inputs} {s : SimState} {cid : String}
    {level : ℚ} {w : String} {k : ℕ} {res : DispatchResult} {k' : ℕ}
    (h : attempt_dispatch inp s cid level w k = (some res, k')) :
    res.witch_id = w ∧ dispatch_sound s cid res := by
  simp only [attempt_dispatch] at h
  repeat' split at h
  all_goals first
    | exact Option.noConfusion (congrArg Prod.fst h)
    | (injection h with h1 h2
       injection h1 with h1
       subst h1
       refine ⟨rfl, ?_⟩
       unfold dispatch_sound
       refine ⟨rfl, rfl, rfl, rfl, ?_, ?_⟩
       case _ =>
         intro tk hmem heq
         have hx := @edt_ge_ticket s.transport_tickets cid
           (get_travel_time inp.network_edges "market_001" cid)
           (earliest_departure_base s.current_time s.witch_schedules w) tk hmem heq
         try dsimp only
         omega
       case _ =>
         rename ((_ && _) = true) => hc
         rw [Bool.and_eq_true] at hc
         exact is_witch_available_sound hc.1)

theorem try_witches_sound {inp : Inputs} {s : SimState} {cid : String} {level : ℚ} :
    ∀ (ws : List String) (k : ℕ) {res : DispatchResult} {k' : ℕ},
      try_witches inp s cid level ws k = (some res, k') → dispatch_sound s cid res := by
  intro ws
  induction ws with
  | nil =>
    intro k res k' h
    exact Option.noConfusion (congrArg Prod.fst h)
  | cons w ws ih =>
    intro k res k' h
    simp only [try_witches] at h
    rcases hx : attempt_dispatch inp s cid level w k with ⟨o, k2⟩
    rw [hx] at h
    cases o with
    | some r =>
      have h3 : some r = some res := congrArg Prod.fst h
      injection h3 with h3
      subst h3
      exact (attempt_dispatch_sound hx).2
    | none => exact ih _ h

theorem dispatch_phase_sound {inp : Inputs} {s : SimState} {cands : List Cand}
    {k : ℕ} {res : DispatchResult} {k' : ℕ}
    (h : dispatch_phase inp s cands k = (some res, k')) :
    ∃ cid, dispatch_sound s cid res := by
  match cands with
  | [] => exact Option.noConfusion (congrArg Prod.fst h)
  | (p, cid, level) :: rest =>
    simp only [dispatch_phase] at h
    split at h
    · exact Option.noConfusion (congrArg Prod.fst h)
    · exact ⟨cid, try_witches_sound _ _ h⟩

/-! ## Association-lookup lemmas for the schedule map -/

theorem lookupD_cons_self {α : Type} {p : String × α} {k : String}
    (h : (p.1 == k) = true) (t : List (String × α)) (d : α) :
    lookupD (p :: t) k d = p.2 := by
  simp [lookupD, h]

theorem lookupD_cons_of_ne {α : Type} {p : String × α} {k : String}
    (h : (p.1 == k) = false) (t : List (String × α)) (d : α) :
    lookupD (p :: t) k d = lookupD t k d := by
  simp [lookupD, h]

theorem lookupD_eq_default_of_not_contains {α : Type} {l : List (String × α)} {k : String}
    (h : containsA l k = false) (d : α) : lookupD l k d = d := by
  induction l with
  | nil => rfl
  | cons p t ih =>
    simp only [containsA, List.any_cons, Bool.or_eq_false_iff] at h
    rw [lookupD_cons_of_ne h.1]
    exact ih h.2

theorem lookupD_append {α : Type} (l1 l2 : List (String × α)) (k : String) (d : α) :
    lookupD (l1 ++ l2) k d =
      if containsA l1 k then lookupD l1 k d else lookupD l2 k d := by
  induction l1 with
  | nil => simp [containsA]
  | cons p t ih =>
    by_cases hp : (p.1 == k) = true
    · rw [List.cons_append, lookupD_cons_self hp, if_pos, lookupD_cons_self hp]
      simp only [containsA, List.any_cons]
      rw [hp]
      rfl
    · have hp' : (p.1 == k) = false := by
        cases hq : (p.1 == k) with
        | true => exact absurd hq hp
        | false => rfl
      rw [List.cons_append, lookupD_cons_of_ne hp', lookupD_cons_of_ne hp', ih]
      have : containsA (p :: t) k = containsA t k := by
        simp [containsA, hp']
      rw [this]

theorem lookupD_updateA_self {α : Type} {l : List (String × α)} {k : String}
    (h : containsA l k = true) (v d : α) :
    lookupD (updateA l k v) k d = v := by
  induction l with
  | nil => simp [containsA] at h
  | cons p t ih =>
    simp only [updateA, List.map_cons]
    by_cases hp : (p.1 == k) = true
    · rw [if_pos hp, @lookupD_cons_self _ (p.1, v) k hp _ _]
    · have hp' : (p.1 == k) = false := by
        cases hq : (p.1 == k) with
        | true => exact absurd hq hp
        | false => rfl
      rw [if_neg hp, lookupD_cons_of_ne hp']
      apply ih
      simp only [containsA, List.any_cons, hp', Bool.false_or] at h
      exact h

theorem lookupD_updateA_other {α : Type} {l : List (String × α)} {k k' : String}
    (hne : k' ≠ k) (v d : α) :
    lookupD (updateA l k v) k' d = lookupD l k' d := by
  induction l with
  | nil => rfl
  | cons p t ih =>
    simp only [updateA, List.map_cons]
    by_cases hp : (p.1 == k) = true
    · rw [if_pos hp]
      have hpk : p.1 = k := by simpa using hp
      have hne2 : ((p.1, v).1 == k') = false := by
        simp only [beq_eq_false_iff_ne]
        intro hx
        have hx' : p.1 = k' := hx
        exact hne (hx' ▸ hpk)
      have hne3 : (p.1 == k') = false := hne2
      rw [lookupD_cons_of_ne hne2, lookupD_cons_of_ne hne3]
      exact ih
    · rw [if_neg hp]
      by_cases hq : (p.1 == k') = true
      · rw [lookupD_cons_self hq, lookupD_cons_self hq]
      · have hq' : (p.1 == k') = false := by
          cases hz : (p.1 == k') with
          | true => exact absurd hz hq
          | false => rfl
        rw [lookupD_cons_of_ne hq', lookupD_cons_of_ne hq']
        exact ih

theorem lookupD_upsertA_self {α : Type} (l : List (String × α)) (k : String) (v d : α) :
    lookupD (upsertA l k v) k d = v := by
  unfold upsertA
  split
  · exact lookupD_updateA_self ‹_› v d
  · rename_i hc
    rw [Bool.not_eq_true] at hc
    rw [lookupD_append, if_neg (by rw [hc]; exact Bool.false_ne_true)]
    exact lookupD_cons_self (by simp) [] d

theorem lookupD_upsertA_other {α : Type} (l : List (String × α)) {k k' : String}
    (hne : k' ≠ k) (v d : α) :
    lookupD (upsertA l k v) k' d = lookupD l k' d := by
  unfold upsertA
  split
  · exact lookupD_updateA_other hne v d
  · rw [lookupD_append]
    split
    · rfl
    · rename_i hc2
      rw [Bool.not_eq_true] at hc2
      rw [lookupD_eq_default_of_not_contains hc2]
      rw [lookupD_cons_of_ne (by simp only [beq_eq_false_iff_ne]; exact fun hx => hne hx.symm)]
      rfl

theorem lookupD_appendSched_self (sch : List (String × List ScheduleEvent))
    (w : String) (ev : ScheduleEvent) :
    lookupD (appendSched sch w ev) w [] = lookupD sch w [] ++ [ev] := by
  unfold appendSched
  exact lookupD_upsertA_self sch w _ []

theorem lookupD_appendSched_other (sch : List (String × List ScheduleEvent))
    {w w' : String} (hne : w' ≠ w) (ev : ScheduleEvent) :
    lookupD (appendSched sch w ev) w' [] = lookupD sch w' [] := by
  unfold appendSched
  exact lookupD_upsertA_other sch hne _ []

/-! ## Invariant preservation through one tick -/

theorem mem_drain_remove_pass {t : ℤ} {pending : List Drain} {d : Drain}
    (h : d ∈ drain_remove_pass t pending) : d ∈ pending := by
  rw [drain_remove_pass_eq_filter] at h
  exact List.mem_of_mem_filter h

theorem dispatch_linked_tick_s1 {inp : Inputs} {s : SimState}
    (h : dispatch_linked s) : dispatch_linked (tick_s1 inp s) := by
  intro d hd
  exact h d (mem_drain_remove_pass hd)

theorem drains_gapped_tick_s1 {inp : Inputs} {s : SimState}
    (h : drains_gapped s) : drains_gapped (tick_s1 inp s) := by
  show (drain_remove_pass s.current_time s.pending_drains).Pairwise drains_gap_ok
  rw [drain_remove_pass_eq_filter]
  exact List.Pairwise.sublist (List.filter_sublist _) h

theorem scheds_gapped_tick_s1 {inp : Inputs} {s : SimState}
    (h : scheds_gapped s) : scheds_gapped (tick_s1 inp s) := h

theorem apply_dispatch_preserves_pending {inp : Inputs} {s1 : SimState}
    {cands : List Cand} {k : ℕ}
    (h1 : dispatch_linked s1) (h2 : drains_gapped s1) :
    dispatch_linked (apply_dispatch s1 (dispatch_phase inp s1 cands k).1) ∧
    drains_gapped (apply_dispatch s1 (dispatch_phase inp s1 cands k).1) := by
  rcases hdp : dispatch_phase inp s1 cands k with ⟨o, k2⟩
  cases o with
  | none => exact ⟨h1, h2⟩
  | some r =>
    have hds := dispatch_phase_sound hdp
    unfold dispatch_sound at hds
    obtain ⟨cid, hd1, ht1, hts, htt, hgap, hsch⟩ := hds
    constructor
    · intro d hd
      replace hd : d ∈ s1.pending_drains ++ [r.drain] := hd
      rcases List.mem_append.1 hd with hd | hd
      · obtain ⟨tk, htk, hp⟩ := h1 d hd
        exact ⟨tk, List.mem_append_left _ htk, hp⟩
      · rw [List.mem_singleton] at hd
        subst hd
        exact ⟨r.ticket, List.mem_append_right _ (List.mem_singleton_self _),
          ht1.trans hd1.symm, hts, htt⟩
    · show (s1.pending_drains ++ [r.drain]).Pairwise drains_gap_ok
      refine List.pairwise_append.2 ⟨h2, List.pairwise_singleton _ _, ?_⟩
      intro d hd d' hd'
      rw [List.mem_singleton] at hd'
      subst hd'
      intro hcid
      obtain ⟨tk, htk, hcid2, hcs2, hct2⟩ := h1 d hd
      have hx := hgap tk htk (by rw [hcid2, hcid, hd1])
      left
      omega

theorem apply_dispatch_preserves_scheds {inp : Inputs} {s1 : SimState}
    {cands : List Cand} {k : ℕ} (h3 : scheds_gapped s1) :
    scheds_gapped (apply_dispatch s1 (dispatch_phase inp s1 cands k).1) := by
  rcases hdp : dispatch_phase inp s1 cands k with ⟨o, k2⟩
  cases o with
  | none => exact h3
  | some r =>
    have hds := dispatch_phase_sound hdp
    unfold dispatch_sound at hds
    obtain ⟨cid, hd1, ht1, hts, htt, hgap, hsch⟩ := hds
    intro w'
    show (lookupD (appendSched s1.witch_schedules r.witch_id r.event) w' []).Pairwise
      events_gap_ok
    by_cases hw : w' = r.witch_id
    · subst hw
      rw [lookupD_appendSched_self]
      refine List.pairwise_append.2 ⟨h3 _, List.pairwise_singleton _ _, ?_⟩
      intro e he e' he'
      rw [List.mem_singleton] at he'
      subst he'
      exact Or.symm (hsch e he)
    · rw [lookupD_appendSched_other _ hw]
      exact h3 w'

theorem tick_eq (inp : Inputs) (s : SimState) :
    tick inp s =
      { apply_dispatch (tick_s1 inp s)
          (dispatch_phase inp (tick_s1 inp s) (tick_cands inp s) (tick_k1 inp s)).1 with
        needing := ((apply_dispatch (tick_s1 inp s)
            (dispatch_phase inp (tick_s1 inp s) (tick_cands inp s)
              (tick_k1 inp s)).1).needing.filter
          fun p => decide (s.current_time < p.2))
        historical_data := s.historical_data ++
          [(s.current_time,
            (drain_apply_pass inp s.current_time
              (fill_phase inp (cauldrons_being_drained s.current_time s.pending_drains)
                s.cursor s.current_levels).1
              (fill_phase inp (cauldrons_being_drained s.current_time s.pending_drains)
                s.cursor s.current_levels).2.1
              s.pending_drains).1)]
        current_time := s.current_time + 1
        cursor := (dispatch_phase inp (tick_s1 inp s) (tick_cands inp s)
          (tick_k1 inp s)).2 } := rfl

theorem tick_pending_eq (inp : Inputs) (s : SimState) :
    (tick inp s).pending_drains =
      (apply_dispatch (tick_s1 inp s)
        (dispatch_phase inp (tick_s1 inp s) (tick_cands inp s)
          (tick_k1 inp s)).1).pending_drains := by
  rw [tick_eq]

theorem tick_tickets_eq (inp : Inputs) (s : SimState) :
    (tick inp s).transport_tickets =
      (apply_dispatch (tick_s1 inp s)
        (dispatch_phase inp (tick_s1 inp s) (tick_cands inp s)
          (tick_k1 inp s)).1).transport_tickets := by
  rw [tick_eq]

theorem tick_scheds_eq (inp : Inputs) (s : SimState) :
    (tick inp s).witch_schedules =
      (apply_dispatch (tick_s1 inp s)
        (dispatch_phase inp (tick_s1 inp s) (tick_cands inp s)
          (tick_k1 inp s)).1).witch_schedules := by
  rw [tick_eq]

theorem tick_preserves_pending {inp : Inputs} {s : SimState}
    (h1 : dispatch_linked s) (h2 : drains_gapped s) :
    dispatch_linked (tick inp s) ∧ drains_gapped (tick inp s) := by
  have key := @apply_dispatch_preserves_pending inp (tick_s1 inp s) (tick_cands inp s)
    (tick_k1 inp s) (dispatch_linked_tick_s1 h1) (drains_gapped_tick_s1 h2)
  constructor
  · unfold dispatch_linked
    rw [tick_pending_eq, tick_tickets_eq]
    exact key.1
  · unfold drains_gapped
    rw [tick_pending_eq]
    exact key.2

theorem tick_preserves_scheds {inp : Inputs} {s : SimState}
    (h3 : scheds_gapped s) : scheds_gapped (tick inp s) := by
  have key := @apply_dispatch_preserves_scheds inp (tick_s1 inp s) (tick_cands inp s)
    (tick_k1 inp s) (scheds_gapped_tick_s1 h3)
  intro w
  unfold scheds_gapped at key
  rw [tick_scheds_eq]
  exact key w

theorem simSteps_pending_invariants {inp : Inputs} {amb : ℕ → ℚ}
    (h0 : inp.existing_unreported = []) (n : ℕ) :
    dispatch_linked (simSteps inp amb n) ∧ drains_gapped (simSteps inp amb n) := by
  induction n with
  | zero =>
    constructor
    · intro d hd
      replace hd : d ∈ inp.existing_unreported.map to_pending := hd
      rw [h0] at hd
      cases hd
    · show (inp.existing_unreported.map to_pending).Pairwise drains_gap_ok
      rw [h0]
      exact List.Pairwise.nil
  | succ n ih => exact tick_preserves_pending ih.1 ih.2

theorem simSteps_scheds_invariant (inp : Inputs) (amb : ℕ → ℚ) (n : ℕ) :
    scheds_gapped (simSteps inp amb n) := by
  induction n with
  | zero =>
    intro w
    exact List.Pairwise.nil
  | succ n ih => exact tick_preserves_scheds ih

theorem gapped_filter_le_one {l : List Drain} (hp : l.Pairwise drains_gap_ok)
    (c : String) (τ : ℤ) :
    (l.filter fun d => d.cauldron_id == c && decide (drain_active d τ)).length ≤ 1 := by
  rcases hfl : l.filter (fun d => d.cauldron_id == c && decide (drain_active d τ)) with
    _ | ⟨d1, _ | ⟨d2, rest⟩⟩
  · rw [hfl]
    simp
  · rw [hfl]
    simp
  · exfalso
    have hpf : (l.filter fun d =>
        d.cauldron_id == c && decide (drain_active d τ)).Pairwise drains_gap_ok :=
      List.Pairwise.sublist (List.filter_sublist _) hp
    rw [hfl] at hpf
    have h12 : drains_gap_ok d1 d2 :=
      (List.pairwise_cons.1 hpf).1 d2 (List.mem_cons_self _ _)
    have hm1 : d1 ∈ l.filter fun d => d.cauldron_id == c && decide (drain_active d τ) := by
      rw [hfl]
      exact List.mem_cons_self _ _
    have hm2 : d2 ∈ l.filter fun d => d.cauldron_id == c && decide (drain_active d τ) := by
      rw [hfl]
      exact List.mem_cons_of_mem _ (List.mem_cons_self _ _)
    have hc1 := List.of_mem_filter hm1
    have hc2 := List.of_mem_filter hm2
    simp only [Bool.and_eq_true, beq_iff_eq, decide_eq_true_eq] at hc1 hc2
    unfold drains_gap_ok at h12
    have h30 := h12 (by rw [hc1.1, hc2.1])
    unfold drain_active at hc1 hc2
    omega

/-- C4 (amended): for a run with no pre-loaded unreported drains, at every
instant and for every cauldron at most one pending drain is active — the
dispatch search spaces every new collection window at least 30 minutes after
every existing ticket's collection end on the same cauldron, and every pending
drain created by the run carries the window of one of those tickets.  (The
original claim fails only because pre-loaded `existing_unreported_drains` enter
`pending_drains` without that check, as `claim4_counterexample` shows.) -/
theorem claim4_amended (inp : Inputs) (amb : ℕ → ℚ)
    (h0 : inp.existing_unreported = []) (n : ℕ) (τ : ℤ) (c : String) :
    ((simSteps inp amb n).pending_drains.filter fun d =>
        d.cauldron_id == c && decide (drain_active d τ)).length ≤ 1 :=
  gapped_filter_le_one (simSteps_pending_invariants h0 n).2 c τ

/-- Witness for the amended C4 at a concrete input and run length. -/
theorem claim4_amended_witness :
    det_inputs.existing_unreported = [] ∧
    ((simSteps det_inputs halfStream 1).pending_drains.filter fun d =>
        d.cauldron_id == "cauldron_001" && decide (drain_active d 0)).length ≤ 1 :=
  ⟨rfl, claim4_amended det_inputs halfStream rfl 1 0 "cauldron_001"⟩

theorem getD_mem {α : Type} {l : List α} {d : α} (h : d ∈ l) (i : ℕ) : l.getD i d ∈ l := by
  rcases hx : l[i]? with _ | a
  · rw [List.getD_eq_getElem?_getD, hx]
    exact h
  · rw [List.getD_eq_getElem?_getD, hx]
    exact List.getElem?_mem hx

theorem updateA_keys {α : Type} {l : List (String × α)} {k : String} {v : α}
    {q : String × α} (h : q ∈ updateA l k v) : ∃ p ∈ l, q.1 = p.1 := by
  unfold updateA at h
  rcases List.mem_map.1 h with ⟨p, hp, he⟩
  refine ⟨p, hp, ?_⟩
  by_cases hc : (p.1 == k) = true
  · rw [if_pos hc] at he
    rw [← he]
  · rw [if_neg hc] at he
    rw [← he]

theorem rates_ok_hist_retro {hist : List (ℤ × List (String × ℚ))} {cid : String}
    {ds de : ℤ} {rate : ℚ} (h : rates_ok_hist hist) :
    rates_ok_hist (apply_retro_drain hist cid ds de rate) := by
  intro e he p hp
  unfold apply_retro_drain at he
  rcases List.mem_map.1 he with ⟨e0, he0, hfe⟩
  by_cases hw : ds ≤ e0.1 ∧ e0.1 ≤ de
  · rw [if_pos hw] at hfe
    subst hfe
    obtain ⟨p0, hp0, hk⟩ := updateA_keys hp
    rw [hk]
    exact h e0 he0 p0 hp0
  · rw [if_neg hw] at hfe
    subst hfe
    exact h e0 he0 p hp

theorem inj_dur_bounds {ndr fr da2 : ℚ}
    (h1 : 3/10 ≤ ndr) (h2 : ndr ≤ 9/20) (h3 : 0 ≤ fr) (h4 : fr ≤ 1/5)
    (h5 : 15 ≤ da2) (h6 : da2 * (1 + fr / ndr) ≤ 100) :
    max 15 (min 180 (int_trunc (da2 / ndr))) = min 180 (int_trunc (da2 / ndr)) ∧
    (0 : ℤ) < min 180 (int_trunc (da2 / ndr)) ∧
    da2 + fr * ((min 180 (int_trunc (da2 / ndr)) : ℤ) : ℚ) ≤ 100 ∧
    3/10 ≤ da2 / ((min 180 (int_trunc (da2 / ndr)) : ℤ) : ℚ) := by
  have hndr0 : 0 < ndr := by linarith
  have hq0 : (0:ℚ) ≤ da2 / ndr := by positivity
  have hx : (33 : ℚ) ≤ da2 / ndr := by
    rw [le_div_iff₀ hndr0]
    nlinarith
  have hD : (33 : ℤ) ≤ int_trunc (da2 / ndr) := by
    rw [int_trunc_eq_floor hq0]
    exact Int.le_floor.2 (by exact_mod_cast hx)
  have hmin : (33 : ℤ) ≤ min 180 (int_trunc (da2 / ndr)) := le_min (by norm_num) hD
  have hcast : ((min 180 (int_trunc (da2 / ndr)) : ℤ) : ℚ) ≤ da2 / ndr := by
    calc ((min 180 (int_trunc (da2 / ndr)) : ℤ) : ℚ)
        ≤ ((int_trunc (da2 / ndr) : ℤ) : ℚ) := by exact_mod_cast min_le_right _ _
      _ ≤ da2 / ndr := int_trunc_le hq0
  have hcast0 : (0:ℚ) < ((min 180 (int_trunc (da2 / ndr)) : ℤ) : ℚ) := by
    have : (0:ℤ) < min 180 (int_trunc (da2 / ndr)) := by omega
    exact_mod_cast this
  have heq : da2 * (1 + fr / ndr) = da2 + fr * (da2 / ndr) := by
    field_simp
    ring
  refine ⟨max_eq_right (by omega), by omega, ?_, ?_⟩
  · have hm : fr * ((min 180 (int_trunc (da2 / ndr)) : ℤ) : ℚ) ≤ fr * (da2 / ndr) :=
      mul_le_mul_of_nonneg_left hcast h3
    linarith
  · rw [le_div_iff₀ hcast0]
    have hnd : ndr * ((min 180 (int_trunc (da2 / ndr)) : ℤ) : ℚ) ≤ da2 := by
      have := (le_div_iff₀ hndr0).1 hcast
      linarith
    nlinarith

theorem inj_plan_sound {r2 : ℕ → ℚ} (hr2 : ∀ i, 0 ≤ r2 i ∧ r2 i ≤ 1)
    {cid : String} {level : ℚ} (k2 : ℕ)
    (hd1 : 3/10 ≤ drain_rates cid) (hd2 : drain_rates cid ≤ 9/20)
    (hf1 : 0 ≤ fill_rates cid) (hf2 : fill_rates cid ≤ 1/5)
    (hlvl : 200 < level) :
    ∃ da2 k4, inj_plan r2 cid level k2 =
        (da2, max 15 (min 180 (int_trunc (da2 / drain_rates cid))), k4) ∧
      15 ≤ da2 ∧ da2 * (1 + fill_rates cid / drain_rates cid) ≤ 100 := by
  have hndr0 : 0 < drain_rates cid := by linarith
  have hfr0 : 0 ≤ fill_rates cid / drain_rates cid := by positivity
  have hfrd : fill_rates cid / drain_rates cid ≤ 2/3 := by
    rw [div_le_iff₀ hndr0]
    nlinarith
  have hmn1 : MAX_CAPACITY_PER_WITCH / (1 + fill_rates cid / drain_rates cid) ≤ 100 := by
    unfold MAX_CAPACITY_PER_WITCH
    rw [div_le_iff₀ (by linarith)]
    linarith
  have hmn0 : 60 ≤ MAX_CAPACITY_PER_WITCH / (1 + fill_rates cid / drain_rates cid) := by
    unfold MAX_CAPACITY_PER_WITCH
    rw [le_div_iff₀ (by linarith)]
    linarith
  have hMNmul : MAX_CAPACITY_PER_WITCH / (1 + fill_rates cid / drain_rates cid) *
      (1 + fill_rates cid / drain_rates cid) = MAX_CAPACITY_PER_WITCH :=
    div_mul_cancel₀ _ (by linarith)
  have hMAX : MAX_CAPACITY_PER_WITCH = (100 : ℚ) := rfl
  have hmnd := uniformD_mem (by norm_num : (15:ℚ) ≤ 50) (hr2 k2).1 (hr2 k2).2
  simp only [inj_plan]
  rw [if_pos hndr0, if_pos hndr0]
  have hmd2 : min (level - 15)
      (MAX_CAPACITY_PER_WITCH / (1 + fill_rates cid / drain_rates cid)) =
      MAX_CAPACITY_PER_WITCH / (1 + fill_rates cid / drain_rates cid) :=
    min_eq_right (by linarith)
  have hmaxd : min (level * 0.50) (min (level - 15)
      (MAX_CAPACITY_PER_WITCH / (1 + fill_rates cid / drain_rates cid))) =
      MAX_CAPACITY_PER_WITCH / (1 + fill_rates cid / drain_rates cid) := by
    rw [hmd2]
    refine min_eq_right ?_
    have : (0.50 : ℚ) = 1/2 := by norm_num
    rw [this]
    linarith
  rw [hmaxd]
  by_cases hmd : uniformD 15 50 (r2 k2) <
      MAX_CAPACITY_PER_WITCH / (1 + fill_rates cid / drain_rates cid)
  · rw [if_pos hmd, if_pos hmd]
    have hu := uniformD_mem (le_of_lt hmd) (hr2 (k2+1)).1 (hr2 (k2+1)).2
    rw [min_eq_left hu.2]
    refine ⟨_, _, rfl, by linarith, ?_⟩
    calc uniformD (uniformD 15 50 (r2 k2))
          (MAX_CAPACITY_PER_WITCH / (1 + fill_rates cid / drain_rates cid)) (r2 (k2+1)) *
          (1 + fill_rates cid / drain_rates cid)
        ≤ MAX_CAPACITY_PER_WITCH / (1 + fill_rates cid / drain_rates cid) *
          (1 + fill_rates cid / drain_rates cid) :=
          mul_le_mul_of_nonneg_right hu.2 (by linarith)
      _ = 100 := by rw [hMNmul, hMAX]
  · rw [if_neg hmd, if_neg hmd]
    rw [min_assoc, min_self]
    refine ⟨_, _, rfl, le_min hmnd.1 (by linarith), ?_⟩
    calc min (uniformD 15 50 (r2 k2))
          (MAX_CAPACITY_PER_WITCH / (1 + fill_rates cid / drain_rates cid)) *
          (1 + fill_rates cid / drain_rates cid)
        ≤ MAX_CAPACITY_PER_WITCH / (1 + fill_rates cid / drain_rates cid) *
          (1 + fill_rates cid / drain_rates cid) :=
          mul_le_mul_of_nonneg_right (min_le_right _ _) (by linarith)
      _ = 100 := by rw [hMNmul, hMAX]

theorem inj_adjust_noop {r2 : ℕ → ℚ} {cid : String} (ds : ℤ) {da2 : ℚ} (k4 : ℕ)
    (hd1 : 3/10 ≤ drain_rates cid) (hd2 : drain_rates cid ≤ 9/20)
    (hf1 : 0 ≤ fill_rates cid) (hf2 : fill_rates cid ≤ 1/5)
    (h5 : 15 ≤ da2) (h6 : da2 * (1 + fill_rates cid / drain_rates cid) ≤ 100) :
    inj_adjust r2 cid ds da2 (max 15 (min 180 (int_trunc (da2 / drain_rates cid)))) k4 =
      (da2, min 180 (int_trunc (da2 / drain_rates cid)),
       ds + min 180 (int_trunc (da2 / drain_rates cid)),
       da2 / ((min 180 (int_trunc (da2 / drain_rates cid)) : ℤ) : ℚ), k4) := by
  obtain ⟨hmax, hpos, hgross, hrate⟩ := inj_dur_bounds hd1 hd2 hf1 hf2 h5 h6
  simp only [inj_adjust]
  rw [hmax]
  have hhot : ¬ (MAX_CAPACITY_PER_WITCH < da2 + fill_rates cid *
      ((min 180 (int_trunc (da2 / drain_rates cid)) : ℤ) : ℚ) ∧ 0 < drain_rates cid) := by
    intro h
    have h1 := h.1
    unfold MAX_CAPACITY_PER_WITCH at h1
    linarith
  rw [if_neg hhot, if_neg hhot, if_neg hhot]
  rw [if_pos hpos]
  have hlow : ¬ (da2 / ((min 180 (int_trunc (da2 / drain_rates cid)) : ℤ) : ℚ) < 0.3) := by
    intro h
    have h03 : (0.3 : ℚ) = 3/10 := by norm_num
    rw [h03] at h
    linarith
  rw [if_neg hlow, if_neg hlow, if_neg hlow, if_neg hlow, if_neg hlow]

theorem inj_commit_cases (st : InjectorState) (entry : ℤ × List (String × ℚ))
    (cid : String) (ds de4 : ℤ) (da4 : ℚ) (dur4 : ℤ) (rate4 : ℚ) (k5 : ℕ) :
    ((inj_commit st entry cid ds de4 da4 dur4 rate4 k5).hist = st.hist ∨
     (inj_commit st entry cid ds de4 da4 dur4 rate4 k5).hist =
       apply_retro_drain st.hist cid ds de4 rate4) ∧
    ((inj_commit st entry cid ds de4 da4 dur4 rate4 k5).added = st.added ∨
     (inj_commit st entry cid ds de4 da4 dur4 rate4 k5).added = st.added ++
       [⟨cid, ds, de4, round2 da4, dur4⟩]) := by
  simp only [inj_commit]
  repeat' split
  all_goals first
    | exact ⟨Or.inl rfl, Or.inl rfl⟩
    | exact ⟨Or.inr rfl, Or.inl rfl⟩
    | exact ⟨Or.inr rfl, Or.inr rfl⟩

theorem injector_attempt_sound {r2 : ℕ → ℚ} (hr2 : ∀ i, 0 ≤ r2 i ∧ r2 i ≤ 1)
    (tt : List (ℤ × ℤ)) (st : InjectorState) (hrates : rates_ok_hist st.hist) :
    rates_ok_hist (injector_attempt r2 tt st).hist ∧
    ((injector_attempt r2 tt st).added = st.added ∨
     ∃ r, (injector_attempt r2 tt st).added = st.added ++ [r] ∧
       overlaps_with_tickets tt r.drain_start_timestamp r.drain_end_timestamp 30 = false ∧
       overlaps_with_unreported_drains st.added r.drain_start_timestamp
         r.drain_end_timestamp r.cauldron_id 30 = false) := by
  simp only [injector_attempt]
  repeat' split
  all_goals try exact ⟨hrates, Or.inl rfl⟩
  rename_i entry hfind x c0 rest hfil hov1 hov2 hlt
  have hmem0 : (c0 :: rest).getD (choiceIdx (c0 :: rest).length (r2 (st.k + 1))) c0 ∈
      c0 :: rest := getD_mem (List.mem_cons_self _ _) _
  have hmemf : (c0 :: rest).getD (choiceIdx (c0 :: rest).length (r2 (st.k + 1))) c0 ∈
      List.filter (fun p => decide (200 < p.2)) entry.2 := by
    rw [hfil]
    exact hmem0
  have hlvl : (200 : ℚ) <
      ((c0 :: rest).getD (choiceIdx (c0 :: rest).length (r2 (st.k + 1))) c0).2 := by
    have := List.of_mem_filter hmemf
    simpa using this
  have hmem2 : (c0 :: rest).getD (choiceIdx (c0 :: rest).length (r2 (st.k + 1))) c0 ∈
      entry.2 := List.mem_of_mem_filter hmemf
  have hentry : entry ∈ st.hist := List.mem_of_find?_eq_some hfind
  have hrats := hrates entry hentry _ hmem2
  obtain ⟨da2, k4, hplan, hb1, hb2⟩ :=
    inj_plan_sound hr2 (st.k + 1 + 1) hrats.1 hrats.2.1 hrats.2.2.1 hrats.2.2.2 hlvl
  rw [hplan] at hov1 hov2 hlt ⊢
  have hdb := inj_dur_bounds hrats.1 hrats.2.1 hrats.2.2.1 hrats.2.2.2 hb1 hb2
  have hadj := @inj_adjust_noop r2 _
    (start_time + randintD 200 ((total_minutes : ℤ) - 200) (r2 st.k)) da2 k4
    hrats.1 hrats.2.1 hrats.2.2.1 hrats.2.2.2 hb1 hb2
  rw [hadj] at hlt ⊢
  obtain ⟨hh, ha⟩ := inj_commit_cases st entry _ _ _ _ _ _ k4
  constructor
  · rcases hh with hh | hh
    · rw [hh]
      exact hrates
    · rw [hh]
      exact rates_ok_hist_retro hrates
  · rcases ha with ha | ha
    · exact Or.inl ha
    · right
      refine ⟨_, ha, ?_, ?_⟩
      · rw [hdb.1] at hov1
        rw [Bool.not_eq_true] at hov1
        exact hov1
      · rw [hdb.1] at hov2
        rw [Bool.not_eq_true] at hov2
        exact hov2

theorem inj_commit_added_mono {st : InjectorState} {entry : ℤ × List (String × ℚ)}
    {cid : String} {ds de4 : ℤ} {da4 : ℚ} {dur4 : ℤ} {rate4 : ℚ} {k5 : ℕ}
    {d : UnreportedDrain} (h : d ∈ st.added) :
    d ∈ (inj_commit st entry cid ds de4 da4 dur4 rate4 k5).added := by
  simp only [inj_commit]
  repeat' split
  all_goals first
    | exact h
    | exact List.mem_append_left _ h

theorem injector_attempt_added_mono (r2 : ℕ → ℚ) (tt : List (ℤ × ℤ)) (st : InjectorState)
    {d : UnreportedDrain} (h : d ∈ st.added) :
    d ∈ (injector_attempt r2 tt st).added := by
  simp only [injector_attempt]
  repeat' split
  all_goals first
    | exact h
    | exact inj_commit_added_mono h

theorem injector_go_added_mono (r2 : ℕ → ℚ) (tt : List (ℤ × ℤ)) (target : ℕ) :
    ∀ (fuel : ℕ) (st : InjectorState) {d : UnreportedDrain}, d ∈ st.added →
      d ∈ (injector_go r2 tt target fuel st).added := by
  intro fuel
  induction fuel with
  | zero => intro st d h; exact h
  | succ fuel ih =>
    intro st d h
    simp only [injector_go]
    split
    · exact h
    · exact ih _ (injector_attempt_added_mono r2 tt st h)

theorem added_suffix_ok_append (tt : List (ℤ × ℤ)) :
    ∀ (xs : List UnreportedDrain) (pre : List UnreportedDrain) (r : UnreportedDrain),
      added_suffix_ok tt pre xs →
      overlaps_with_tickets tt r.drain_start_timestamp r.drain_end_timestamp 30 = false →
      overlaps_with_unreported_drains (pre ++ xs) r.drain_start_timestamp
        r.drain_end_timestamp r.cauldron_id 30 = false →
      added_suffix_ok tt pre (xs ++ [r]) := by
  intro xs
  induction xs with
  | nil =>
    intro pre r hs ht hd
    refine ⟨ht, ?_, True.intro⟩
    simpa using hd
  | cons x rest ih =>
    intro pre r hs ht hd
    obtain ⟨h1, h2, h3⟩ := hs
    refine ⟨h1, h2, ?_⟩
    apply ih (pre ++ [x]) r h3 ht
    rw [show (pre ++ [x]) ++ rest = pre ++ x :: rest by simp]
    exact hd

theorem injector_go_sound {r2 : ℕ → ℚ} (hr2 : ∀ i, 0 ≤ r2 i ∧ r2 i ≤ 1)
    (tt : List (ℤ × ℤ)) (target : ℕ) :
    ∀ (fuel : ℕ) (st : InjectorState) (base added : List UnreportedDrain),
      rates_ok_hist st.hist → st.added = base ++ added → added_suffix_ok tt base added →
      ∃ added2, (injector_go r2 tt target fuel st).added = base ++ added2 ∧
        added_suffix_ok tt base added2 := by
  intro fuel
  induction fuel with
  | zero => intro st base added hr hb hs; exact ⟨added, hb, hs⟩
  | succ fuel ih =>
    intro st base added hr hb hs
    simp only [injector_go]
    split
    · exact ⟨added, hb, hs⟩
    · obtain ⟨hh, ha⟩ := injector_attempt_sound hr2 tt st hr
      rcases ha with ha | ⟨r, ha, ht, hd⟩
      · exact ih _ base added hh (ha.trans hb) hs
      · refine ih _ base (added ++ [r]) hh ?_ ?_
        · rw [ha, hb, List.append_assoc]
        · refine added_suffix_ok_append tt added base r hs ht ?_
          rw [← hb]
          exact hd

/-! ## Rate bounds hold on every simulated snapshot -/

theorem rates_ok_levels_updateA {l : List (String × ℚ)} {k : String} {v : ℚ}
    (h : rates_ok_levels l) : rates_ok_levels (updateA l k v) := by
  intro p hp
  obtain ⟨p0, hp0, hk⟩ := updateA_keys hp
  rw [hk]
  exact h p0 hp0

theorem fill_phase_rates_ok {inp : Inputs} (being : List String) :
    ∀ (levels : List (String × ℚ)) (k : ℕ), rates_ok_levels levels →
      rates_ok_levels (fill_phase inp being k levels).1 ∧
      rates_ok_levels (fill_phase inp being k levels).2.1 := by
  intro levels
  induction levels with
  | nil =>
    intro k h
    exact ⟨fun p hp => absurd hp (by simp [fill_phase]), fun p hp => absurd hp (by simp [fill_phase])⟩
  | cons q rest ih =>
    intro k h
    rcases q with ⟨cid, lvl⟩
    have hq := h (cid, lvl) (List.mem_cons_self _ _)
    have hrest : rates_ok_levels rest := fun p hp => h p (List.mem_cons_of_mem _ hp)
    constructor
    · intro p hp
      simp only [fill_phase] at hp
      rcases List.mem_cons.1 hp with hp | hp
      · subst hp
        exact hq
      · exact (ih _ hrest).1 p hp
    · intro p hp
      simp only [fill_phase] at hp
      rcases List.mem_cons.1 hp with hp | hp
      · subst hp
        exact hq
      · exact (ih _ hrest).2 p hp

theorem apply_drain_rates_ok {inp : Inputs} {t : ℤ}
    {lv : List (String × ℚ) × List (String × ℚ)} (d : Drain)
    (h1 : rates_ok_levels lv.1) (h2 : rates_ok_levels lv.2) :
    rates_ok_levels (apply_drain inp t lv d).1 ∧
    rates_ok_levels (apply_drain inp t lv d).2 := by
  unfold apply_drain
  repeat' split
  all_goals exact ⟨by first | exact h1 | exact rates_ok_levels_updateA h1,
                   by first | exact h2 | exact rates_ok_levels_updateA h2⟩

theorem drain_apply_pass_rates_ok {inp : Inputs} {t : ℤ} :
    ∀ (pending : List Drain) (minute current : List (String × ℚ)),
      rates_ok_levels minute → rates_ok_levels current →
      rates_ok_levels (drain_apply_pass inp t minute current pending).1 ∧
      rates_ok_levels (drain_apply_pass inp t minute current pending).2 := by
  intro pending
  induction pending with
  | nil => intro minute current h1 h2; exact ⟨h1, h2⟩
  | cons d ds ih =>
    intro minute current h1 h2
    have hd := @apply_drain_rates_ok inp t (minute, current) d h1 h2
    have := ih (apply_drain inp t (minute, current) d).1 (apply_drain inp t (minute, current) d).2
      hd.1 hd.2
    simpa [drain_apply_pass, List.foldl_cons] using this

theorem tick_rates_ok {inp : Inputs} {s : SimState}
    (h1 : rates_ok_levels s.current_levels) (h2 : rates_ok_hist s.historical_data) :
    rates_ok_levels (tick inp s).current_levels ∧
    rates_ok_hist (tick inp s).historical_data := by
  have hf := @fill_phase_rates_ok inp
    (cauldrons_being_drained s.current_time s.pending_drains) s.current_levels s.cursor h1
  have hd := @drain_apply_pass_rates_ok inp s.current_time
    s.pending_drains _ _ hf.1 hf.2
  constructor
  · rw [tick_current_levels]
    exact hd.2
  · rw [tick_historical_data]
    intro e he
    rcases List.mem_append.1 he with he | he
    · exact h2 e he
    · rw [List.mem_singleton] at he
      subst he
      exact hd.1

theorem initial_levels_rates_ok {inp : Inputs} {amb : ℕ → ℚ}
    (hin : ∀ c ∈ inp.cauldrons, 3/10 ≤ drain_rates c.id ∧ drain_rates c.id ≤ 9/20 ∧
      0 ≤ fill_rates c.id ∧ fill_rates c.id ≤ 1/5) :
    rates_ok_levels (initial_levels amb inp.cauldrons) := by
  intro p hp
  unfold initial_levels at hp
  rcases List.mem_map.1 hp with ⟨q, hq, he⟩
  have hqc : q.2 ∈ inp.cauldrons := by
    rcases List.mem_enum_iff_getElem?.1 hq with hg
    exact List.getElem?_mem hg
  subst he
  exact hin q.2 hqc

theorem simSteps_rates_ok {inp : Inputs} {amb : ℕ → ℚ}
    (hin : ∀ c ∈ inp.cauldrons, 3/10 ≤ drain_rates c.id ∧ drain_rates c.id ≤ 9/20 ∧
      0 ≤ fill_rates c.id ∧ fill_rates c.id ≤ 1/5) (n : ℕ) :
    rates_ok_levels (simSteps inp amb n).current_levels ∧
    rates_ok_hist (simSteps inp amb n).historical_data := by
  induction n with
  | zero =>
    exact ⟨initial_levels_rates_ok hin,
      fun e he => absurd he (by simp [simSteps, init_state])⟩
  | succ n ih => exact tick_rates_ok ih.1 ih.2

/-! ## Tickets persist to the end of the run; pre-loaded drains reach the
final collection -/

theorem simSteps_tickets_mono (inp : Inputs) (amb : ℕ → ℚ) {m n : ℕ} (h : m ≤ n) :
    ∃ l, (simSteps inp amb n).transport_tickets =
      (simSteps inp amb m).transport_tickets ++ l := by
  induction n, h using Nat.le_induction with
  | base => exact ⟨[], (List.append_nil _).symm⟩
  | succ n hmn ih =>
    obtain ⟨l, hl⟩ := ih
    obtain ⟨l2, hl2⟩ := tick_tickets inp (simSteps inp amb n)
    refine ⟨l ++ l2, ?_⟩
    show (tick inp (simSteps inp amb n)).transport_tickets = _
    rw [hl2, hl, List.append_assoc]

theorem final_state_eq (inp : Inputs) (amb : ℕ → ℚ) :
    final_state inp amb = simSteps inp amb total_minutes := rfl

theorem mem_final_tickets_of_early {inp : Inputs} {amb : ℕ → ℚ} {m : ℕ} {tk : Ticket}
    (hm : m ≤ total_minutes) (h : tk ∈ (simSteps inp amb m).transport_tickets) :
    tk ∈ (final_state inp amb).transport_tickets := by
  obtain ⟨l, hl⟩ := simSteps_tickets_mono inp amb hm
  show tk ∈ (simSteps inp amb total_minutes).transport_tickets
  rw [hl]
  exact List.mem_append_left _ h

theorem anomaly_preload_mem :
    anomaly_drain ∈ final_unreported anomaly_inputs halfStream := by
  simp only [final_unreported]
  split
  · exact injector_go_added_mono _ _ _ 2000 _ (by decide)
  · decide

/-- C9 counterexample: the claim fails as stated because drains pre-loaded from
the `existing_unreported_drains` dataset join the final collection without any
re-validation against the tickets this run emits.  With a one-cauldron input, a
pre-loaded drain over minutes `[40, 60]` coexists with the run's very first
collection ticket, whose window `[30, 72]` overlaps it. -/
theorem claim9_counterexample :
    ¬ (∀ (inp : Inputs) (amb : ℕ → ℚ), ∀ d ∈ final_unreported inp amb,
        ∀ tk ∈ (final_state inp amb).transport_tickets, tk.cauldron_id = d.cauldron_id →
          clear_of_ticket d tk) := by
  intro h
  have hex : ∃ tk ∈ (simSteps anomaly_inputs halfStream 1).transport_tickets,
      tk.cauldron_id = anomaly_drain.cauldron_id ∧ ¬ clear_of_ticket anomaly_drain tk := by
    decide
  obtain ⟨tk, htk, hcid, hnc⟩ := hex
  exact hnc (h anomaly_inputs halfStream anomaly_drain anomaly_preload_mem tk
    (mem_final_tickets_of_early (by norm_num [total_minutes, start_time, end_time]) htk) hcid)

/-- C9 (amended): the final anomaly collection splits into the pre-loaded
records — which the injector includes without any re-validation against the
tickets this run emits, as `claim9_counterexample` shows — followed by the
drains the generation loop accepted, in acceptance order; and each accepted
drain's recorded window passed both of the injector's proximity tests at its
acceptance: it neither overlaps nor sits within a sub-30-minute positive gap
of any ticket window of the run, nor of any unreported-drain window already
in the collection at that moment (pre-loaded or previously accepted) on the
same cauldron.  This requires the second random stream to produce unit draws
and every input cauldron to carry the configured rate bounds (all twelve
do). -/
theorem claim9_amended (inp : Inputs) (amb : ℕ → ℚ)
    (hr2 : ∀ i, 0 ≤ inp.rng2 i ∧ inp.rng2 i ≤ 1)
    (hin : ∀ c ∈ inp.cauldrons, 3/10 ≤ drain_rates c.id ∧ drain_rates c.id ≤ 9/20 ∧
      0 ≤ fill_rates c.id ∧ fill_rates c.id ≤ 1/5) :
    ∃ added, final_unreported inp amb = inp.existing_unreported ++ added ∧
      added_suffix_ok (ticket_times_of (final_state inp amb).transport_tickets)
        inp.existing_unreported added := by
  simp only [final_unreported]
  split
  · have hrt : rates_ok_hist (final_state inp amb).historical_data :=
      (simSteps_rates_ok hin total_minutes).2
    exact injector_go_sound hr2
      (ticket_times_of (final_state inp amb).transport_tickets)
      (randintD 10 12 (inp.rng (final_state inp amb).cursor)).toNat 2000
      ⟨(final_state inp amb).historical_data, inp.existing_unreported, 0⟩
      inp.existing_unreported [] hrt (List.append_nil _).symm True.intro
  · exact ⟨[], (List.append_nil _).symm, True.intro⟩

/-- Witness for the amended C9 at a concrete input. -/
theorem claim9_amended_witness :
    (∀ i, 0 ≤ det_inputs.rng2 i ∧ det_inputs.rng2 i ≤ 1) ∧
    (∀ c ∈ det_inputs.cauldrons, 3/10 ≤ drain_rates c.id ∧ drain_rates c.id ≤ 9/20 ∧
      0 ≤ fill_rates c.id ∧ fill_rates c.id ≤ 1/5) ∧
    ∃ added, final_unreported det_inputs halfStream =
        det_inputs.existing_unreported ++ added ∧
      added_suffix_ok
        (ticket_times_of (final_state det_inputs halfStream).transport_tickets)
        det_inputs.existing_unreported added :=
  ⟨fun i => ⟨by norm_num [det_inputs, halfStream], by norm_num [det_inputs, halfStream]⟩,
   by decide,
   claim9_amended det_inputs halfStream
     (fun i => ⟨by norm_num [det_inputs, halfStream], by norm_num [det_inputs, halfStream]⟩)
     (by decide)⟩

end Regen
